import Mathlib

set_option autoImplicit false
set_option maxRecDepth 8192

/-!
Verification development for the `fence` sandbox launcher.

This file gives a shallow embedding, in Lean 4, of the parts of the Go
sources that the specification's claims are about:

* the path utilities of `internal/sandbox/utils.go` (`NormalizePath`,
  `ContainsGlobChars`, `GenerateProxyEnvVars`, `EncodeSandboxedCommand`,
  `DecodeSandboxedCommand`, `ResolveExecutionShell`);
* the dangerous-path catalog of `internal/sandbox/dangerous.go`
  (`DangerousFiles`, `DangerousDirectories`, `GetMandatoryDenyPatterns`,
  `FindDangerousFiles`, default read/write path catalogs);
* the runtime exec-deny computation (`GetRuntimeDeniedExecutablePaths`);
* the Linux confinement builder of `internal/sandbox/linux.go`
  (`WrapCommandLinuxWithOptions` and its helpers).

Go standard-library primitives used by that code (`filepath.Clean`,
`filepath.Join`, `filepath.Base`, `filepath.Dir`, `strings` helpers,
base64) are re-implemented here following their documented semantics;
strings are treated as their character sequences (the Go code only ever
indexes them at ASCII boundaries).  Effectful primitives (`os.Stat`,
`filepath.EvalSymlinks`, `exec.LookPath`, device comparison, glob
expansion) are parameters of an explicit environment structure, so every
definition stays executable on concrete environments.
-/

namespace Fence

/-! ## Go string and path helpers -/

/-- Character codes that are awkward to write literally. -/
def chSquote : Char := Char.ofNat 39

/-- The backslash character. -/
def chBslash : Char := Char.ofNat 92

/-- The backtick character. -/
def chBtick : Char := Char.ofNat 96

/-- `strings.HasPrefix pre s` (byte-wise in Go, character-wise here; the
prefixes used by the sources are ASCII). -/
def strHasPre (pre s : String) : Bool := pre.data.isPrefixOf s.data

/-- `strings.Contains s sub` on character lists. -/
def listHasSub (needle : List Char) : List Char → Bool
  | [] => needle.isEmpty
  | c :: rest => needle.isPrefixOf (c :: rest) || listHasSub needle rest

/-- `strings.Contains s sub`. -/
def containsSubstr (s sub : String) : Bool := listHasSub sub.data s.data

/-- `unicode.IsSpace` restricted to the whitespace classification Lean
provides; the sources only ever trim ASCII whitespace. -/
def goTrimSpace (s : String) : String :=
  ⟨((s.data.dropWhile Char.isWhitespace).reverse.dropWhile Char.isWhitespace).reverse⟩

/-- `filepath.IsAbs` on Unix: the path begins with a slash. -/
def goIsAbs (s : String) : Bool := s.data.head? = some '/'

/-- Split a character list on a separator, like `strings.Split`.  `cur` is
the reversed partial chunk. -/
def splitCharsAux (sep : Char) : List Char → List Char → List (List Char)
  | [], cur => [cur.reverse]
  | c :: rest, cur =>
    if c = sep then cur.reverse :: splitCharsAux sep rest []
    else splitCharsAux sep rest (c :: cur)

/-- `strings.Split s "/"`: the slash-separated components of a path. -/
def splitSlash (s : String) : List String :=
  (splitCharsAux '/' s.data []).map fun l => ⟨l⟩

/-- One step of `filepath.Clean`'s element processing over a stack of
output components (held deepest-first).  Empty and `.` elements are
dropped, `..` pops a normal component (or is kept/dropped at the root
depending on whether the path is absolute), anything else is pushed. -/
def cleanPush (rooted : Bool) (stack : List String) (c : String) : List String :=
  if c = "" ∨ c = "." then stack
  else if c = ".." then
    match stack with
    | top :: s' => if top = ".." then ".." :: top :: s' else s'
    | [] => if rooted then [] else [".."]
  else c :: stack

/-- `filepath.Clean`'s element processing: fold the components onto a
stack (held deepest-first). -/
def cleanStack (rooted : Bool) (stack : List String) : List String → List String
  | [] => stack
  | c :: rest => cleanStack rooted (cleanPush rooted stack c) rest

/-- Join path components with slashes (`strings.Join comps "/"`). -/
def relString : List String → String
  | [] => ""
  | [x] => x
  | x :: rest => x ++ "/" ++ relString (rest)

/-- Render a cleaned component list back into a path, as
`filepath.Clean` does. -/
def renderPath (rooted : Bool) (comps : List String) : String :=
  match comps with
  | [] => if rooted then "/" else "."
  | _ => (if rooted then "/" else "") ++ relString comps

/-- `filepath.Clean` for Unix paths. -/
def goClean (s : String) : String :=
  if s = "" then "."
  else
    let rooted := goIsAbs s
    renderPath rooted ((cleanStack rooted [] (splitSlash s)).reverse)

/-- `filepath.Join a b` for Unix paths: empty elements are dropped, the
rest are joined with a slash and cleaned. -/
def goJoin (a b : String) : String :=
  if a = "" then (if b = "" then "" else goClean b)
  else if b = "" then goClean a
  else goClean (a ++ "/" ++ b)

/-- `filepath.Base` for Unix paths. -/
def goBase (s : String) : String :=
  if s = "" then "."
  else
    let stripped := (s.data.reverse.dropWhile (· = '/'))
    if stripped = [] then "/"
    else ⟨(stripped.takeWhile (· ≠ '/')).reverse⟩

/-- `filepath.Dir` for Unix paths: everything up to and including the last
slash, cleaned; `"."` when there is no slash. -/
def goDir (s : String) : String :=
  let pre := (s.data.reverse.dropWhile (· ≠ '/')).reverse
  if pre = [] then "." else goClean ⟨pre⟩

/-- `filepath.Abs`, given the working directory `os.Getwd` would report
(`none` when `Getwd` fails, in which case Go's `Abs` errors and the
callers that ignore the error observe the empty string). -/
def goAbs (cwd? : Option String) (p : String) : String :=
  if goIsAbs p then goClean p
  else
    match cwd? with
    | some wd => goJoin wd p
    | none => ""

/-! ## utils.go: glob detection and NormalizePath -/

/-- The glob metacharacters recognized by `ContainsGlobChars`. -/
def globChars : List Char := ['*', '?', '[', ']']

/-- `ContainsGlobChars` from `utils.go`: `strings.ContainsAny(pattern, "*?[]")`. -/
def ContainsGlobChars (pattern : String) : Bool :=
  pattern.data.any (· ∈ globChars)

/-- The ambient process state `NormalizePath` consults: the home directory
(`os.UserHomeDir`, empty on error), the working directory (`os.Getwd`,
`none` on error) and symlink resolution (`filepath.EvalSymlinks`,
`none` on error). -/
structure PathEnv where
  home : String
  cwd : Option String
  evalSymlinks : String → Option String

/-- The `switch` of `NormalizePath`: tilde expansion and resolution of
relative paths against the working directory. -/
def normalizeCore (env : PathEnv) (pathPattern : String) : String :=
  if pathPattern = "~" then env.home
  else if strHasPre "~/" pathPattern then goJoin env.home (pathPattern.drop 2)
  else if strHasPre "./" pathPattern ∨ strHasPre "../" pathPattern then
    goAbs env.cwd (goJoin (env.cwd.getD "") pathPattern)
  else if ¬goIsAbs pathPattern ∧ ¬ContainsGlobChars pathPattern then
    goAbs env.cwd (goJoin (env.cwd.getD "") pathPattern)
  else pathPattern

/-- `NormalizePath` from `utils.go`: expand `~`/relative paths, then (for
glob-free results) resolve symlinks, keeping the unresolved path when
resolution fails. -/
def NormalizePath (env : PathEnv) (pathPattern : String) : String :=
  let normalized := normalizeCore env pathPattern
  if ContainsGlobChars normalized then normalized
  else
    match env.evalSymlinks normalized with
    | some resolved => resolved
    | none => normalized

/-! ## dangerous.go: catalogs and mandatory deny patterns -/

/-- `DangerousFiles` from `dangerous.go`. -/
def DangerousFiles : List String :=
  [".gitconfig", ".gitmodules", ".bashrc", ".bash_profile", ".zshrc",
   ".zprofile", ".profile", ".ripgreprc", ".mcp.json"]

/-- `DangerousDirectories` from `dangerous.go`. -/
def DangerousDirectories : List String :=
  [".vscode", ".idea", ".claude/commands", ".claude/agents"]

/-- `GetDefaultWritePaths` from `dangerous.go`, parametrized by the home
directory string (`os.UserHomeDir`, empty on error). -/
def GetDefaultWritePaths (home : String) : List String :=
  ["/dev/stdout", "/dev/stderr", "/dev/null", "/dev/tty",
   "/dev/dtracehelper", "/dev/autofs_nowait", "/tmp/fence",
   "/private/tmp/fence"] ++
  (if home ≠ "" then [goJoin home ".npm/_logs", goJoin home ".fence/debug"] else [])

/-- `GetDefaultReadablePaths` from `dangerous.go`, parametrized by the home
directory string. -/
def GetDefaultReadablePaths (home : String) : List String :=
  ["/bin", "/sbin", "/usr", "/lib", "/lib64", "/etc", "/proc", "/sys",
   "/dev", "/System", "/Library", "/Applications", "/private/etc",
   "/private/var/db", "/private/var/run", "/opt", "/run", "/tmp",
   "/private/tmp", "/usr/local", "/opt/homebrew", "/nix", "/snap"] ++
  (if home ≠ "" then
    [goJoin home ".nvm", goJoin home ".fnm", goJoin home ".volta",
     goJoin home ".n", goJoin home ".pyenv", goJoin home ".local/pipx",
     goJoin home ".rbenv", goJoin home ".rvm", goJoin home ".cargo/bin",
     goJoin home ".rustup", goJoin home "go/bin", goJoin home ".go",
     goJoin home ".local/bin", goJoin home "bin", goJoin home ".bun/bin",
     goJoin home ".deno/bin"]
   else [])

/-- `GetMandatoryDenyPatterns` from `dangerous.go`: cwd-joined paths and
recursive glob patterns for the dangerous catalog, git hooks always, git
config unless `allowGitConfig`. -/
def GetMandatoryDenyPatterns (cwd : String) (allowGitConfig : Bool) : List String :=
  (DangerousFiles.flatMap fun f => [goJoin cwd f, "**/" ++ f]) ++
  (DangerousDirectories.flatMap fun d => [goJoin cwd d, "**/" ++ d ++ "/**"]) ++
  [goJoin cwd ".git/hooks", "**/.git/hooks/**"] ++
  (if ¬allowGitConfig then [goJoin cwd ".git/config", "**/.git/config"] else [])

/-- `getMandatoryDenyPaths` from `linux.go`: the concrete (non-glob)
mandatory-deny paths — the dangerous catalog joined to `cwd`, git hooks
and git config under `cwd`, and the dangerous files joined to the home
directory when `os.UserHomeDir` succeeds. -/
def getMandatoryDenyPaths (home? : Option String) (cwd : String) : List String :=
  (DangerousFiles.map fun f => goJoin cwd f) ++
  (DangerousDirectories.map fun d => goJoin cwd d) ++
  [goJoin cwd ".git/hooks", goJoin cwd ".git/config"] ++
  (match home? with
   | some home => DangerousFiles.map fun f => goJoin home f
   | none => [])

/-! ## The policy configuration model

Only the fields read by the functions embedded here are modelled.  Go
distinguishes `nil` slices from empty ones where the code checks
`!= nil`; those fields are `Option (List String)`. -/

/-- The `network` block of a policy (`config.NetworkConfig`), restricted
to the field the Linux builder reads. -/
structure NetworkConfig where
  allowedDomains : List String := []

/-- The `filesystem` block of a policy (`config.FilesystemConfig`). -/
structure FilesystemConfig where
  defaultDenyRead : Bool := false
  wslInterop : Option Bool := none
  allowRead : Option (List String) := none
  allowExecute : Option (List String) := none
  denyRead : Option (List String) := none
  allowWrite : Option (List String) := none
  denyWrite : Option (List String) := none
  allowGitConfig : Bool := false

/-- The `command` block of a policy (`config.CommandConfig`). -/
structure CommandConfig where
  deny : List String := []
  allow : List String := []
  useDefaults : Option Bool := none

/-- A policy (`config.Config`), restricted to the blocks the embedded
functions read.  A `nil` `*Config` pointer is modelled as `Option Config`
at the call sites that check it. -/
structure Config where
  network : NetworkConfig := {}
  filesystem : FilesystemConfig := {}
  command : CommandConfig := {}

/-! ## utils.go: proxy environment variables -/

/-- `itoa` from `utils.go` (`strconv.Itoa`). -/
def itoa (n : Int) : String := toString n

/-- The `NO_PROXY` value built by `GenerateProxyEnvVars`
(`strings.Join` of the loopback and private-network entries). -/
def noProxyValue : String :=
  "localhost,127.0.0.1,::1,*.local,.local,169.254.0.0/16,10.0.0.0/8,172.16.0.0/12,192.168.0.0/16"

/-- `GenerateProxyEnvVars` from `utils.go`. -/
def GenerateProxyEnvVars (httpPort socksPort : Int) : List String :=
  let base := ["FENCE_SANDBOX=1", "TMPDIR=/tmp/fence"]
  if httpPort = 0 ∧ socksPort = 0 then base
  else
    let withNoProxy := base ++ ["NO_PROXY=" ++ noProxyValue, "no_proxy=" ++ noProxyValue]
    let withHttp :=
      if httpPort > 0 then
        withNoProxy ++
          ["HTTP_PROXY=http://localhost:" ++ itoa httpPort,
           "HTTPS_PROXY=http://localhost:" ++ itoa httpPort,
           "http_proxy=http://localhost:" ++ itoa httpPort,
           "https_proxy=http://localhost:" ++ itoa httpPort]
      else withNoProxy
    if socksPort > 0 then
      withHttp ++
        ["ALL_PROXY=socks5h://localhost:" ++ itoa socksPort,
         "all_proxy=socks5h://localhost:" ++ itoa socksPort,
         "FTP_PROXY=socks5h://localhost:" ++ itoa socksPort,
         "ftp_proxy=socks5h://localhost:" ++ itoa socksPort,
         "GIT_SSH_COMMAND=ssh -o ProxyCommand='nc -X 5 -x localhost:" ++
           itoa socksPort ++ " %h %p'"]
    else withHttp

/-! ## utils.go: sandboxed-command base64 token

Go strings are byte sequences; commands are modelled as lists of byte
values (naturals below 256).  `b64Encode`/`b64Decode` follow
`encoding/base64` `StdEncoding` (standard alphabet, `=` padding). -/

/-- The standard base64 alphabet, by index. -/
def b64Char (n : Nat) : Char :=
  if n < 26 then Char.ofNat (65 + n)
  else if n < 52 then Char.ofNat (97 + (n - 26))
  else if n < 62 then Char.ofNat (48 + (n - 52))
  else if n = 62 then '+'
  else '/'

/-- Decode one standard base64 alphabet character. -/
def b64DecChar (c : Char) : Option Nat :=
  let n := c.toNat
  if 65 ≤ n ∧ n ≤ 90 then some (n - 65)
  else if 97 ≤ n ∧ n ≤ 122 then some (n - 97 + 26)
  else if 48 ≤ n ∧ n ≤ 57 then some (n - 48 + 52)
  else if c = '+' then some 62
  else if c = '/' then some 63
  else none

/-- `base64.StdEncoding.EncodeToString` on byte lists. -/
def b64Encode : List Nat → List Char
  | [] => []
  | [b0] => [b64Char (b0 / 4), b64Char (b0 % 4 * 16), '=', '=']
  | [b0, b1] =>
    [b64Char (b0 / 4), b64Char (b0 % 4 * 16 + b1 / 16), b64Char (b1 % 16 * 4), '=']
  | b0 :: b1 :: b2 :: rest =>
    b64Char (b0 / 4) :: b64Char (b0 % 4 * 16 + b1 / 16) ::
      b64Char (b1 % 16 * 4 + b2 / 64) :: b64Char (b2 % 64) :: b64Encode rest

/-- `base64.StdEncoding.DecodeString` on character lists: groups of four
characters, with `=` padding only in the final group. -/
def b64Decode : List Char → Option (List Nat)
  | [] => some []
  | c0 :: c1 :: c2 :: c3 :: rest =>
    (b64DecChar c0).bind fun n0 =>
    (b64DecChar c1).bind fun n1 =>
      if c2 = '=' then
        if c3 = '=' ∧ rest = [] then some [n0 * 4 + n1 / 16] else none
      else
        (b64DecChar c2).bind fun n2 =>
          if c3 = '=' then
            if rest = [] then some [n0 * 4 + n1 / 16, n1 % 16 * 16 + n2 / 4]
            else none
          else
            (b64DecChar c3).bind fun n3 =>
              (b64Decode rest).map fun tail =>
                (n0 * 4 + n1 / 16) :: (n1 % 16 * 16 + n2 / 4) ::
                  (n2 % 4 * 64 + n3) :: tail
  | _ => none

/-- `EncodeSandboxedCommand` from `utils.go`: truncate to 100 bytes, then
base64-encode. -/
def EncodeSandboxedCommand (command : List Nat) : List Char :=
  let command := if command.length > 100 then command.take 100 else command
  b64Encode command

/-- `DecodeSandboxedCommand` from `utils.go`. -/
def DecodeSandboxedCommand (encoded : List Char) : Option (List Nat) :=
  b64Decode encoded

/-! ## Shell resolution (`ResolveExecutionShell`) -/

/-- The ambient state `ResolveExecutionShell` consults: the `SHELL`
environment variable, `exec.LookPath("bash")`, and `os.Stat` (returning
whether the file is a directory and its mode bits). -/
structure ShellEnv where
  shellVar : String
  lookPathBash : Option String
  stat : String → Option (Bool × Nat)

/-- The distinct error returns of `ResolveExecutionShell` (the Go code
returns `error` values; each constructor tags one `return` site). -/
inductive ShellError where
  | bashNotFound
  | shellUnset
  | shellNotAbsolute
  | shellNotAllowed
  | shellStatFailed
  | shellNotExecutable
  | invalidMode
deriving DecidableEq

/-- `ShellModeDefault` from `shell_select.go`. -/
def ShellModeDefault : String := "default"

/-- `ShellModeUser` from `shell_select.go`. -/
def ShellModeUser : String := "user"

/-- `allowedUserShells` from `shell_select.go` (a set, modelled as the
list of its members). -/
def allowedUserShells : List String := ["sh", "bash", "zsh", "ksh", "dash", "fish"]

/-- The `os.Stat` checks of mode `user`: stat failure, directories and
files without an execute bit are rejected. -/
def statExecCheck (envShell : String) (st : Option (Bool × Nat)) :
    Except ShellError String :=
  match st with
  | none => Except.error ShellError.shellStatFailed
  | some (isDir, fmode) =>
    if isDir ∨ Nat.land fmode 0o111 = 0 then
      Except.error ShellError.shellNotExecutable
    else Except.ok envShell

/-- The shell-path resolution switch of `ResolveExecutionShell` (the
body computing `shellPath` for an already-defaulted mode). -/
def resolveShellPath (env : ShellEnv) (mode : String) : Except ShellError String :=
  if mode = ShellModeDefault then
    match env.lookPathBash with
    | some path => Except.ok path
    | none => Except.error ShellError.bashNotFound
  else if mode = ShellModeUser then
    let envShell := goTrimSpace env.shellVar
    if envShell = "" then Except.error ShellError.shellUnset
    else if ¬goIsAbs envShell then Except.error ShellError.shellNotAbsolute
    else if ¬allowedUserShells.contains (goBase envShell) then
      Except.error ShellError.shellNotAllowed
    else statExecCheck envShell (env.stat envShell)
  else Except.error ShellError.invalidMode

/-- `ResolveExecutionShell`: resolve the shell executable path and
invocation flag for the given mode (empty mode falls back to the
default mode). -/
def ResolveExecutionShell (env : ShellEnv) (mode : String) (login : Bool) :
    Except ShellError (String × String) :=
  let mode := if mode = "" then ShellModeDefault else mode
  match resolveShellPath env mode with
  | Except.error e => Except.error e
  | Except.ok shellPath => Except.ok (shellPath, if login then "-lc" else "-c")

/-! ## The sandbox environment

The Linux builder and the runtime exec-deny computation consult the
filesystem and process state.  These effectful primitives are fields of
an explicit environment: `fileExists`/`isDirectory`/`isSymlink` model
`os.Stat`/`os.Lstat` queries, `evalSymlinks` models
`filepath.EvalSymlinks` (`none` = error), `sameDevice` the `syscall.Stat`
device comparison, `expandGlob` the repository's `ExpandGlobPatterns`
helper (whose source is outside the provided tree), `lookPath`
`exec.LookPath`.  `shellQuote`/`shellQuoteSingle` stand for the
repository's `ShellQuote`/`ShellQuoteSingle` helpers and `marshalConfig`
for `json.Marshal` of the full configuration, none of which the claims
depend on.  Feature booleans are the relevant fields of
`DetectLinuxFeatures`, `shellPath` the result of `exec.LookPath("bash")`,
`fenceExePath` `os.Executable()`, `seccompGen` the generated seccomp
filter path (`none` = generation failed), and `resolvConfTarget`
`filepath.EvalSymlinks("/etc/resolv.conf")`. -/

structure SandboxEnv where
  fileExists : String → Bool
  isDirectory : String → Bool
  isSymlink : String → Bool
  evalSymlinks : String → Option String
  sameDevice : String → String → Bool
  expandGlob : List String → List String
  lookPath : String → Option String
  home : Option String
  cwd : Option String
  canUnshareNet : Bool
  hasSeccomp : Bool
  isWSL : Bool
  canUseLandlock : Bool
  shellPath : String
  fenceExePath : String
  seccompGen : Option String
  resolvConfTarget : Option String
  marshalConfig : Option String
  shellQuote : List String → String
  shellQuoteSingle : String → String

/-- The `PathEnv` that `NormalizePath` sees inside the sandbox code
(`os.UserHomeDir` errors are swallowed into an empty home string). -/
def SandboxEnv.pathEnv (env : SandboxEnv) : PathEnv :=
  { home := env.home.getD "", cwd := env.cwd, evalSymlinks := env.evalSymlinks }

/-- `canMountOver` from `linux.go`: false for symlinks, otherwise
whether the path exists. -/
def canMountOver (env : SandboxEnv) (path : String) : Bool :=
  !env.isSymlink path && env.fileExists path

/-! ## Runtime exec-deny (`GetRuntimeDeniedExecutablePaths`) -/

/-- `commonExecutableDirs` from the runtime exec-deny source. -/
def commonExecutableDirs : List String :=
  ["/usr/bin", "/bin", "/usr/local/bin", "/opt/homebrew/bin", "/opt/local/bin"]

/-- Modelled from the spec: the command analyzer's `tokenizeCommand`,
whose source file is not part of the provided tree.  Per the analyzer
section of the specification it splits a shell string into tokens
honoring single quotes, double quotes and backslash escaping.  `mode` is
0 outside quotes, 1 inside single quotes, 2 inside double quotes; the
Bool flag records a pending backslash escape; `cur` is the reversed
current token. -/
def tokAux : List Char → Nat → Bool → List Char → List String
  | [], _, _, cur => if cur = [] then [] else [⟨cur.reverse⟩]
  | c :: rest, mode, true, cur => tokAux rest mode false (c :: cur)
  | c :: rest, 1, false, cur =>
    if c = chSquote then tokAux rest 0 false cur
    else tokAux rest 1 false (c :: cur)
  | c :: rest, 2, false, cur =>
    if c = '"' then tokAux rest 0 false cur
    else if c = chBslash then tokAux rest 2 true cur
    else tokAux rest 2 false (c :: cur)
  | c :: rest, _, false, cur =>
    if c = ' ' ∨ c = Char.ofNat 9 ∨ c = Char.ofNat 10 then
      if cur = [] then tokAux rest 0 false []
      else ⟨cur.reverse⟩ :: tokAux rest 0 false []
    else if c = chSquote then tokAux rest 1 false cur
    else if c = '"' then tokAux rest 2 false cur
    else if c = chBslash then tokAux rest 0 true cur
    else tokAux rest 0 false (c :: cur)

/-- Modelled from the spec: `tokenizeCommand` on a string. -/
def tokenizeCommand (s : String) : List String := tokAux s.data 0 false []

/-- The shell metacharacters that disqualify a deny rule from runtime
exec enforcement (the argument of `strings.ContainsAny`). -/
def shellMetaChars : List Char :=
  ['*', '?', '[', ']', '|', '&', ';', '(', ')', '<', '>', '$', chBtick, '=']

/-- `runtimeExecutableToken`: the single executable token of a deny rule,
or `none` when the rule is empty, has several tokens, or carries shell
metacharacters. -/
def runtimeExecutableToken (rule : String) : Option String :=
  let rule := goTrimSpace rule
  if rule = "" then none
  else
    let tokens := tokenizeCommand rule
    if tokens.length ≠ 1 then none
    else
      let token := goTrimSpace (tokens.headD "")
      if token = "" then none
      else if token.data.any (· ∈ shellMetaChars) then none
      else some token

/-- `executablePathExists`: a non-empty path that `os.Stat` resolves to a
non-directory. -/
def executablePathExists (env : SandboxEnv) (path : String) : Bool :=
  path != "" && env.fileExists path && !env.isDirectory path

/-- The `add` closure of `resolveExecutablePaths`: append unless empty or
already present. -/
def goAdd (acc : List String) (p : String) : List String :=
  if p = "" ∨ acc.contains p then acc else acc ++ [p]

/-- The `addCanonicalPath` closure of `resolveExecutablePaths`: add the
path and, when symlink resolution succeeds, the resolved path. -/
def addCanonicalPath (env : SandboxEnv) (acc : List String) (p : String) : List String :=
  if p = "" then acc
  else
    let acc := goAdd acc p
    match env.evalSymlinks p with
    | some resolved => goAdd acc resolved
    | none => acc

/-- `resolveExecutablePaths`: candidate executable paths for a deny
token — the token itself (made absolute) when it contains a separator,
otherwise the `LookPath` result and the common executable directories. -/
def resolveExecutablePaths (env : SandboxEnv) (token : String) : List String :=
  if token.data.contains '/' then
    let abs :=
      if goIsAbs token then token
      else
        match env.cwd with
        | some wd => goJoin wd token
        | none => token
    if executablePathExists env abs then addCanonicalPath env [] abs else []
  else
    let acc :=
      match env.lookPath token with
      | some resolved => addCanonicalPath env [] resolved
      | none => []
    commonExecutableDirs.foldl
      (fun acc dir =>
        let candidate := goJoin dir token
        if executablePathExists env candidate then addCanonicalPath env acc candidate
        else acc)
      acc

/-- Modelled from the spec: `UseDefaultDeniedCommands` (its source is
not in the provided tree) — the `useDefaults` tri-state, unset meaning
true. -/
def UseDefaultDeniedCommands (c : CommandConfig) : Bool := c.useDefaults.getD true

/-- Modelled from the spec: `config.DefaultDeniedCommands` (its source
is not in the provided tree) — the built-in dangerous-command catalog
(shutdown/reboot family, kernel module loaders, disk writers).  The
claims proved about `GetRuntimeDeniedExecutablePaths` do not depend on
the exact entries. -/
def DefaultDeniedCommands : List String :=
  ["shutdown", "reboot", "halt", "poweroff", "insmod", "modprobe", "rmmod",
   "dd if=", "mkfs"]

/-- Go `slices.Sort` on strings (lexicographic). -/
def goSortStrings (l : List String) : List String :=
  l.mergeSort (fun a b => decide (a ≤ b))

/-- The inner dedup loop of `GetRuntimeDeniedExecutablePaths`: collect
paths not yet in `seen`, threading the updated `seen` set. -/
def collectPaths (seen : List String) : List String → List String × List String
  | [] => ([], seen)
  | p :: rest =>
    if seen.contains p then collectPaths seen rest
    else
      let (ps, s') := collectPaths (seen ++ [p]) rest
      (p :: ps, s')

/-- The rule loop of `GetRuntimeDeniedExecutablePaths`. -/
def rulesFold (env : SandboxEnv) (seen : List String) :
    List String → List String × List String
  | [] => ([], seen)
  | rule :: rest =>
    match runtimeExecutableToken rule with
    | none => rulesFold env seen rest
    | some token =>
      let (ps, s1) := collectPaths seen (resolveExecutablePaths env token)
      let (ps2, s2) := rulesFold env s1 rest
      (ps ++ ps2, s2)

/-- `GetRuntimeDeniedExecutablePaths`: deduplicated, sorted executable
paths derived from single-token deny rules. -/
def GetRuntimeDeniedExecutablePaths (env : SandboxEnv) (cfg? : Option Config) :
    List String :=
  match cfg? with
  | none => []
  | some cfg =>
    let denyRules := cfg.command.deny ++
      (if UseDefaultDeniedCommands cfg.command then DefaultDeniedCommands else [])
    goSortStrings (rulesFold env [] denyRules).1

/-! ## FindDangerousFiles

The bounded walk of `dangerous.go` is modelled over an explicit
directory tree.  A result path is represented by its components relative
to the walk root (the source returns the same paths prefixed with the
cleaned root; we also assume the cleaned root does not itself end in a
separator, which holds for every root other than `/`).  `filepath.WalkDir`
visits entries in lexical order; the claims below are insensitive to
visit order, so children are walked in list order. -/

/-- A filesystem node: a file or a directory with children. -/
inductive FsNode where
  | file (name : String) : FsNode
  | dir (name : String) (children : List FsNode) : FsNode

/-- The entry name of a node. -/
def FsNode.name : FsNode → String
  | .file n => n
  | .dir n _ => n

/-- `strings.Contains d (string os.PathSeparator)`. -/
def hasSlash (s : String) : Bool := s.data.contains '/'

/-- The multi-component dangerous-directory check of `FindDangerousFiles`:
some catalog entry with a separator is a suffix of `rel` on a
path-component boundary, within the depth limit. -/
def multiCompBoundaryMatch (maxDepth subdirLevel : Nat) (rel : String) : Bool :=
  DangerousDirectories.any fun dd =>
    hasSlash dd && decide (subdirLevel ≤ maxDepth) && dd.data.isSuffixOf rel.data &&
      (rel == dd || rel.data.getD (rel.data.length - dd.data.length - 1) ' ' == '/')

/-- Does a directory contain a subdirectory named `hooks`
(`os.Stat(filepath.Join(path, "hooks"))` reporting a directory)? -/
def hasHooksDir (children : List FsNode) : Bool :=
  children.any fun c =>
    match c with
    | .dir "hooks" _ => true
    | _ => false

/-- Does a directory contain a non-directory entry named `config`? -/
def hasConfigFile (children : List FsNode) : Bool :=
  children.any fun c =>
    match c with
    | .file "config" => true
    | _ => false

mutual

/-- The walk of `FindDangerousFiles`, applied to one node whose parent
components (relative to the root) are `parent`, mirroring the branch
order of the source callback: `node_modules` pruning, the `.git` peek,
the skip of direct children of the root, depth pruning, the dangerous
file/directory checks, the multi-component boundary check, and descent
otherwise. -/
def walkNode (maxDepth : Nat) (parent : List String) : FsNode → List (List String)
  | .file name =>
    let comps := parent ++ [name]
    let subdirLevel := comps.length - 1
    if comps.length = 1 then []
    else if DangerousFiles.contains name ∧ subdirLevel ≤ maxDepth then [comps]
    else []
  | .dir name children =>
    let comps := parent ++ [name]
    let subdirLevel := comps.length - 1
    if name = "node_modules" then []
    else if name = ".git" then
      if 1 ≤ subdirLevel ∧ subdirLevel ≤ maxDepth then
        (if hasHooksDir children then [comps ++ ["hooks"]] else []) ++
        (if hasConfigFile children then [comps ++ ["config"]] else [])
      else []
    else if comps.length = 1 then walkChildren maxDepth comps children
    else if subdirLevel > maxDepth then []
    else if DangerousDirectories.contains name ∧ subdirLevel ≤ maxDepth then [comps]
    else if multiCompBoundaryMatch maxDepth subdirLevel (relString comps) then [comps]
    else walkChildren maxDepth comps children

/-- Walk a list of sibling nodes in order. -/
def walkChildren (maxDepth : Nat) (parent : List String) :
    List FsNode → List (List String)
  | [] => []
  | c :: cs => walkNode maxDepth parent c ++ walkChildren maxDepth parent cs

end

/-- `FindDangerousFiles` on a modelled root directory: nothing for a
non-positive depth, otherwise the bounded walk over the root's
children. -/
def FindDangerousFiles (root : List FsNode) (maxDepth : Int) : List (List String) :=
  if maxDepth ≤ 0 then []
  else walkChildren maxDepth.toNat [] root

/-- `DefaultMaxDangerousFileDepth` from `dangerous.go`. -/
def DefaultMaxDangerousFileDepth : Int := 3

/-! ## The Linux confinement builder (`WrapCommandLinuxWithOptions`)

The builder is embedded as the list of `bwrap` arguments it assembles
(`bwrapArgs` in the source), split into named sections concatenated in
exactly the order the source appends them.  Go map iteration order is
unspecified; the one map iterated over (`writablePaths`) is modelled as
a first-insertion-ordered deduplicated list, which fixes one of the
permutations Go may produce — the claims proved below are insensitive to
the order within that section.  The final shell-quoted command string is
`shellQuote` of this argument vector (prefixed by the seccomp fd
redirection when a filter was generated); the claims are about the
argument vector and the inner script, so quoting is left abstract. -/

/-- `LinuxBridge`, reduced to the socket paths the builder reads. -/
structure Bridge where
  httpSocketPath : String
  socksSocketPath : String

/-- One reverse-bridge entry: a host port and its Unix socket path
(`ReverseBridge.Ports[i]` / `ReverseBridge.SocketPaths[i]`). -/
structure RevSock where
  port : Int
  socketPath : String

/-- `LinuxSandboxOptions`. -/
structure LinuxSandboxOptions where
  useLandlock : Bool := false
  useSeccomp : Bool := false
  useEBPF : Bool := false
  monitor : Bool := false
  debug : Bool := false

/-- `cfg != nil && cfg.Filesystem.DefaultDenyRead`. -/
def cfgDefaultDenyRead (cfg? : Option Config) : Bool :=
  match cfg? with
  | some cfg => cfg.filesystem.defaultDenyRead
  | none => false

/-- `hasWildcardAllow`: the literal `"*"` occurs in `allowedDomains`. -/
def hasWildcardAllow (cfg? : Option Config) : Bool :=
  match cfg? with
  | some cfg => cfg.network.allowedDomains.contains "*"
  | none => false

/-- The fixed leading arguments. -/
def baseArgs : List String := ["bwrap", "--new-session", "--die-with-parent"]

/-- The network-namespace flag: only with `CAP_NET_ADMIN` available and
no wildcard allowed domain. -/
def netnsArgs (env : SandboxEnv) (cfg? : Option Config) : List String :=
  if env.canUnshareNet && !hasWildcardAllow cfg? then ["--unshare-net"] else []

/-- The seccomp arguments: present when requested, supported, and the
BPF filter generation succeeded. -/
def seccompArgs (env : SandboxEnv) (opts : LinuxSandboxOptions) : List String :=
  if opts.useSeccomp && env.hasSeccomp then
    match env.seccompGen with
    | some _ => ["--seccomp", "3"]
    | none => []
  else []

/-- A read-only bind of a path onto itself. -/
def roBind (p : String) : List String := ["--ro-bind", p, p]

/-- The essential read-only binds of `defaultDenyRead` mode (skipping the
specially-mounted paths). -/
def essentialRoBinds (env : SandboxEnv) : List String :=
  (GetDefaultReadablePaths (env.home.getD "")).flatMap fun p =>
    if p = "/dev" ∨ p = "/proc" ∨ p = "/tmp" ∨ p = "/private/tmp" then []
    else if env.fileExists p then roBind p else []

/-- The glob-expanded `allowRead`/`allowExecute` bind loop, threading the
`boundPaths` dedup set. -/
def roBindFold (env : SandboxEnv) (bound : List String) :
    List String → List String × List String
  | [] => ([], bound)
  | p :: rest =>
    if env.fileExists p && !strHasPre "/dev/" p && !strHasPre "/proc/" p &&
        !bound.contains p then
      let (args, b') := roBindFold env (p :: bound) rest
      (roBind p ++ args, b')
    else roBindFold env bound rest

/-- The non-glob `allowRead`/`allowExecute` bind loop (paths normalized
first), threading `boundPaths`. -/
def roBindNormFold (env : SandboxEnv) (bound : List String) :
    List String → List String × List String
  | [] => ([], bound)
  | p :: rest =>
    let n := NormalizePath env.pathEnv p
    if !ContainsGlobChars n && env.fileExists n && !strHasPre "/dev/" n &&
        !strHasPre "/proc/" n && !bound.contains n then
      let (args, b') := roBindNormFold env (n :: bound) rest
      (roBind n ++ args, b')
    else roBindNormFold env bound rest

/-- The effective `wslInterop` setting: the policy tri-state, defaulting
to WSL auto-detection. -/
def effectiveWSLInterop (env : SandboxEnv) (cfg? : Option Config) : Bool :=
  match cfg? with
  | some cfg =>
    match cfg.filesystem.wslInterop with
    | some b => b
    | none => env.isWSL
  | none => env.isWSL

/-- The `allowRead`, `allowExecute` and `/init` binds of
`defaultDenyRead` mode, sharing one `boundPaths` set. -/
def allowReadExecInitArgs (env : SandboxEnv) (cfg? : Option Config) : List String :=
  let step1 : List String × List String :=
    match cfg? with
    | some cfg =>
      match cfg.filesystem.allowRead with
      | some ps =>
        let (a1, b1) := roBindFold env [] (env.expandGlob ps)
        let (a2, b2) := roBindNormFold env b1 ps
        (a1 ++ a2, b2)
      | none => ([], [])
    | none => ([], [])
  let step2 : List String × List String :=
    match cfg? with
    | some cfg =>
      match cfg.filesystem.allowExecute with
      | some ps =>
        let (a1, b1) := roBindFold env step1.2 (env.expandGlob ps)
        let (a2, b2) := roBindNormFold env b1 ps
        (step1.1 ++ a1 ++ a2, b2)
      | none => step1
    | none => step1
  if effectiveWSLInterop env cfg? && env.fileExists "/init" &&
      !step2.2.contains "/init" then
    step2.1 ++ ["--ro-bind", "/init", "/init"]
  else step2.1

/-- The filesystem base plan: essential binds plus allow binds in
`defaultDenyRead` mode, a read-only bind of the whole root otherwise. -/
def fsBaseArgs (env : SandboxEnv) (cfg? : Option Config) : List String :=
  if cfgDefaultDenyRead cfg? then
    essentialRoBinds env ++ allowReadExecInitArgs env cfg?
  else ["--ro-bind", "/", "/"]

/-- The special filesystem mounts always added. -/
def specialMounts : List String :=
  ["--dev-bind", "/dev", "/dev", "--proc", "/proc", "--tmpfs", "/tmp"]

/-- `intermediaryDirs("/", targetDir)` from `linux.go`: the chain of
directories from the root down to `targetDir`. -/
def intermediaryDirsFromRoot (targetDir : String) : List String :=
  let t := goClean targetDir
  if goIsAbs t then
    let rel := if t = "/" then "." else t.drop 1
    let parts := splitSlash rel
    (parts.foldl
      (fun (acc : List String × String) part =>
        let current := goJoin acc.2 part
        (acc.1 ++ [current], current))
      ([], "/")).1
  else [targetDir]

/-- The tmpfs/dir walk of the resolv.conf cross-mount fix: tmpfs at the
first directory on a different device, `--dir` for the deeper ones. -/
def boundaryWalkAux (env : SandboxEnv) (found : Bool) : List String → List String
  | [] => []
  | d :: rest =>
    if !found then
      if !env.sameDevice "/" d then ["--tmpfs", d] ++ boundaryWalkAux env true rest
      else boundaryWalkAux env false rest
    else ["--dir", d] ++ boundaryWalkAux env true rest

/-- The `/etc/resolv.conf` cross-mount fix. -/
def resolvConfArgs (env : SandboxEnv) (cfg? : Option Config) : List String :=
  match env.resolvConfTarget with
  | none => []
  | some target =>
    if target = "/etc/resolv.conf" then []
    else
      let special := strHasPre "/dev/" target || strHasPre "/proc/" target ||
        strHasPre "/tmp/" target ||
        (cfgDefaultDenyRead cfg? &&
          (GetDefaultReadablePaths (env.home.getD "")).any fun p =>
            strHasPre (p ++ "/") target)
      if env.fileExists target && !env.sameDevice "/" target && !special then
        let targetDir := goDir target
        let dirs := intermediaryDirsFromRoot targetDir
        let walk := boundaryWalkAux env false dirs
        if dirs.any (fun d => !env.sameDevice "/" d) then
          walk ++ ["--ro-bind", target, target]
        else walk
      else []

/-- Append with map-style deduplication (first insertion wins). -/
def dedupAppend (l : List String) (p : String) : List String :=
  if l.contains p then l else l ++ [p]

/-- The `writablePaths` map in first-insertion order: default write
paths (minus the specially-mounted prefixes), glob-expanded `allowWrite`
entries, then normalized non-glob `allowWrite` entries. -/
def writablePathsList (env : SandboxEnv) (cfg? : Option Config) : List String :=
  let base := (GetDefaultWritePaths (env.home.getD "")).filter fun p =>
    !(strHasPre "/dev/" p || strHasPre "/tmp/" p || strHasPre "/private/tmp/" p)
  let l0 := base.foldl dedupAppend []
  match cfg? with
  | some cfg =>
    match cfg.filesystem.allowWrite with
    | some ps =>
      let l1 := (env.expandGlob ps).foldl dedupAppend l0
      ps.foldl
        (fun acc p =>
          let n := NormalizePath env.pathEnv p
          if !ContainsGlobChars n then dedupAppend acc n else acc)
        l1
    | none => l0
  | none => l0

/-- The writable binds for the effective write paths that exist. -/
def writableBindArgs (env : SandboxEnv) (cfg? : Option Config) : List String :=
  (writablePathsList env cfg?).flatMap fun p =>
    if env.fileExists p then ["--bind", p, p] else []

/-- The cross-mount path collection (normal mode): normalized non-glob
and glob-expanded `allowExecute`, `allowRead`, then `allowWrite`
entries. -/
def crossMountPathsList (env : SandboxEnv) (cfg : Config) : List String :=
  ((cfg.filesystem.allowExecute.getD []).foldl
    (fun acc p => if !ContainsGlobChars p then acc ++ [NormalizePath env.pathEnv p] else acc)
    []) ++
  env.expandGlob (cfg.filesystem.allowExecute.getD []) ++
  ((cfg.filesystem.allowRead.getD []).foldl
    (fun acc p => if !ContainsGlobChars p then acc ++ [NormalizePath env.pathEnv p] else acc)
    []) ++
  env.expandGlob (cfg.filesystem.allowRead.getD []) ++
  ((cfg.filesystem.allowWrite.getD []).foldl
    (fun acc p => if !ContainsGlobChars p then acc ++ [NormalizePath env.pathEnv p] else acc)
    []) ++
  env.expandGlob (cfg.filesystem.allowWrite.getD [])

/-- The `crossMountWritable` marks: entries stemming from `allowWrite`. -/
def crossWritableList (env : SandboxEnv) (cfg : Config) : List String :=
  ((cfg.filesystem.allowWrite.getD []).foldl
    (fun acc p => if !ContainsGlobChars p then acc ++ [NormalizePath env.pathEnv p] else acc)
    []) ++
  env.expandGlob (cfg.filesystem.allowWrite.getD [])

/-- The inner intermediary-directory walk of the cross-mount loop,
threading the `crossMountBound` set and the boundary flag.  Returns the
emitted arguments, the updated bound set, and the final flag. -/
def crossInnerWalk (env : SandboxEnv) (bound : List String) (found : Bool) :
    List String → List String × List String × Bool
  | [] => ([], bound, found)
  | d :: rest =>
    if bound.contains d then crossInnerWalk env bound true rest
    else if !found then
      if !env.sameDevice "/" d then
        let (a, b, f) := crossInnerWalk env (bound ++ [d]) true rest
        (["--tmpfs", d] ++ a, b, f)
      else crossInnerWalk env bound false rest
    else
      let (a, b, f) := crossInnerWalk env (bound ++ [d]) true rest
      (["--dir", d] ++ a, b, f)

/-- The outer cross-mount loop over the collected paths. -/
def crossOuter (env : SandboxEnv) (writable : List String) (bound : List String) :
    List String → List String
  | [] => []
  | p :: rest =>
    if !env.fileExists p || env.sameDevice "/" p || bound.contains p then
      crossOuter env writable bound rest
    else
      let bound1 := bound ++ [p]
      let targetDir := if env.isDirectory p then p else goDir p
      let (a, bound2, found) := crossInnerWalk env bound1 false (intermediaryDirsFromRoot targetDir)
      let tail :=
        if found then
          if writable.contains p then ["--bind", p, p] else ["--ro-bind", p, p]
        else []
      a ++ tail ++ crossOuter env writable bound2 rest

/-- The cross-mount binds of normal (non-`defaultDenyRead`) mode. -/
def crossMountArgs (env : SandboxEnv) (cfg? : Option Config) : List String :=
  if cfgDefaultDenyRead cfg? then []
  else
    match cfg? with
    | none => []
    | some cfg =>
      crossOuter env (crossWritableList env cfg) [] (crossMountPathsList env cfg)

/-- The `denyReadPaths` set: glob-expanded entries plus normalized
non-glob entries of `denyRead`. -/
def denyReadPathsList (env : SandboxEnv) (cfg? : Option Config) : List String :=
  match cfg? with
  | some cfg =>
    match cfg.filesystem.denyRead with
    | some ps =>
      env.expandGlob ps ++
        ps.foldl
          (fun acc p =>
            let n := NormalizePath env.pathEnv p
            if !ContainsGlobChars n then acc ++ [n] else acc)
          []
    | none => []
  | none => []

/-- The mask for a hidden path: tmpfs over a directory, a read-only bind
of `/dev/null` over a file. -/
def maskMount (env : SandboxEnv) (p : String) : List String :=
  if env.isDirectory p then ["--tmpfs", p] else ["--ro-bind", "/dev/null", p]

/-- The per-entry mounts of the glob-expanded `denyRead` loop. -/
def denyReadExpandedEntry (env : SandboxEnv) (p : String) : List String :=
  if canMountOver env p then maskMount env p else []

/-- The per-entry mounts of the non-glob `denyRead` loop. -/
def denyReadNormEntry (env : SandboxEnv) (p : String) : List String :=
  let n := NormalizePath env.pathEnv p
  if !ContainsGlobChars n && canMountOver env n then maskMount env n else []

/-- The `denyRead` masking section. -/
def denyReadArgs (env : SandboxEnv) (cfg? : Option Config) : List String :=
  match cfg? with
  | some cfg =>
    match cfg.filesystem.denyRead with
    | some ps =>
      (env.expandGlob ps).flatMap (denyReadExpandedEntry env) ++
        ps.flatMap (denyReadNormEntry env)
    | none => []
  | none => []

/-- The protective mount for one mandatory-deny path: a mask in
`defaultDenyRead` mode (a rebind would make hidden files readable), a
read-only rebind otherwise. -/
def protectiveMount (env : SandboxEnv) (cfg? : Option Config) (p : String) : List String :=
  if cfgDefaultDenyRead cfg? then maskMount env p else ["--ro-bind", p, p]

/-- The mandatory dangerous-path loop: skip paths claimed by `denyRead`,
emit one protective mount per existing path, threading the `seen` dedup
set (shared with the `denyWrite` loop that follows). -/
def mandatoryFold (env : SandboxEnv) (cfg? : Option Config) (denyList : List String)
    (seen : List String) : List String → List String × List String
  | [] => ([], seen)
  | p :: rest =>
    if denyList.contains p then mandatoryFold env cfg? denyList seen rest
    else if !seen.contains p && env.fileExists p then
      (protectiveMount env cfg? p ++ (mandatoryFold env cfg? denyList (seen ++ [p]) rest).1,
        (mandatoryFold env cfg? denyList (seen ++ [p]) rest).2)
    else mandatoryFold env cfg? denyList seen rest

/-- The mandatory dangerous-path section and its final `seen` set. -/
def mandatoryResult (env : SandboxEnv) (cfg? : Option Config) :
    List String × List String :=
  mandatoryFold env cfg? (denyReadPathsList env cfg?) []
    (getMandatoryDenyPaths env.home (env.cwd.getD ""))

/-- The mandatory dangerous-path protective mounts. -/
def mandatoryArgs (env : SandboxEnv) (cfg? : Option Config) : List String :=
  (mandatoryResult env cfg?).1

/-- The `seen` set after the mandatory loop. -/
def seenAfterMandatory (env : SandboxEnv) (cfg? : Option Config) : List String :=
  (mandatoryResult env cfg?).2

/-- The glob-expanded `denyWrite` read-only rebind loop, threading
`seen`. -/
def roSeenFold (env : SandboxEnv) (seen : List String) :
    List String → List String × List String
  | [] => ([], seen)
  | p :: rest =>
    if env.fileExists p && !seen.contains p then
      let (a, s') := roSeenFold env (seen ++ [p]) rest
      (["--ro-bind", p, p] ++ a, s')
    else roSeenFold env seen rest

/-- The non-glob `denyWrite` loop (paths normalized first), threading
`seen`. -/
def roSeenNormFold (env : SandboxEnv) (seen : List String) :
    List String → List String × List String
  | [] => ([], seen)
  | p :: rest =>
    let n := NormalizePath env.pathEnv p
    if !ContainsGlobChars n && env.fileExists n && !seen.contains n then
      let (a, s') := roSeenNormFold env (seen ++ [n]) rest
      (["--ro-bind", n, n] ++ a, s')
    else roSeenNormFold env seen rest

/-- The `denyWrite` read-only rebind section. -/
def denyWriteArgs (env : SandboxEnv) (cfg? : Option Config) : List String :=
  match cfg? with
  | some cfg =>
    match cfg.filesystem.denyWrite with
    | some ps =>
      let (a1, s1) := roSeenFold env (seenAfterMandatory env cfg?) (env.expandGlob ps)
      let (a2, _) := roSeenNormFold env s1 ps
      a1 ++ a2
    | none => []
  | none => []

/-- The outbound bridge socket binds. -/
def bridgeArgs (bridge : Option Bridge) : List String :=
  match bridge with
  | some b =>
    ["--bind", b.httpSocketPath, b.httpSocketPath,
     "--bind", b.socksSocketPath, b.socksSocketPath]
  | none => []

/-- The reverse-bridge socket directory bind. -/
def reverseBridgeArgs (rb : Option (List RevSock)) : List String :=
  match rb with
  | some (s :: _) =>
    let tmpDir := goDir s.socketPath
    ["--bind", tmpDir, tmpDir]
  | _ => []

/-- The outbound-proxy block of the inner script (the first
`fmt.Sprintf` of the script builder, with the two socket paths
interpolated). -/
def bridgeScriptBlock (b : Bridge) : String :=
  "\n# Start HTTP proxy listener (port 3128 -> Unix socket -> host HTTP proxy)\nsocat TCP-LISTEN:3128,fork,reuseaddr UNIX-CONNECT:" ++
  b.httpSocketPath ++
  " >/dev/null 2>&1 &\nHTTP_PID=$!\n\n# Start SOCKS proxy listener (port 1080 -> Unix socket -> host SOCKS proxy)\nsocat TCP-LISTEN:1080,fork,reuseaddr UNIX-CONNECT:" ++
  b.socksSocketPath ++
  " >/dev/null 2>&1 &\nSOCKS_PID=$!\n\n# Set proxy environment variables\nexport HTTP_PROXY=http://127.0.0.1:3128\nexport HTTPS_PROXY=http://127.0.0.1:3128\nexport http_proxy=http://127.0.0.1:3128\nexport https_proxy=http://127.0.0.1:3128\nexport ALL_PROXY=socks5h://127.0.0.1:1080\nexport all_proxy=socks5h://127.0.0.1:1080\nexport NO_PROXY=localhost,127.0.0.1\nexport no_proxy=localhost,127.0.0.1\nexport FENCE_SANDBOX=1\n\n"

/-- One reverse-bridge listener line pair of the inner script. -/
def revSockScriptLine (s : RevSock) : String :=
  "socat UNIX-LISTEN:" ++ s.socketPath ++ ",fork,reuseaddr TCP:127.0.0.1:" ++
    itoa s.port ++ " >/dev/null 2>&1 &\n" ++
  "REV_" ++ itoa s.port ++ "_PID=$!\n"

/-- The reverse-bridge block of the inner script. -/
def revScriptBlock (socks : List RevSock) : String :=
  "\n# Start reverse bridge listeners for inbound connections\n" ++
    String.join (socks.map revSockScriptLine) ++ "\n"

/-- The fixed cleanup/trap block of the inner script. -/
def cleanupScriptBlock : String :=
  "\n# Cleanup function\ncleanup() \x7b\n    jobs -p | xargs -r kill 2>/dev/null\n\x7d\ntrap cleanup EXIT\n\n# Small delay to ensure socat listeners are ready\nsleep 0.1\n\n# Run the user command\n"

/-- `useLandlockWrapper`: Landlock requested and supported, the
executable path known, not a `/tmp` test binary, and named like the
fence binary. -/
def useLandlockWrapper (env : SandboxEnv) (opts : LinuxSandboxOptions) : Bool :=
  opts.useLandlock && env.canUseLandlock && env.fenceExePath != "" &&
    !strHasPre "/tmp/" env.fenceExePath &&
    containsSubstr (goBase env.fenceExePath) "fence"

/-- The Landlock wrapper invocation arguments. -/
def landlockWrapperArgs (env : SandboxEnv) (opts : LinuxSandboxOptions)
    (command : String) : List String :=
  [env.fenceExePath, "--landlock-apply"] ++
    (if opts.debug then ["--debug"] else []) ++
    ["--", "bash", "-c", command]

/-- The tail of the inner script: either the Landlock re-exec (with the
serialized policy exported) or the user command itself. -/
def commandScriptBlock (env : SandboxEnv) (cfg? : Option Config)
    (opts : LinuxSandboxOptions) (command : String) : String :=
  if useLandlockWrapper env opts then
    (match cfg? with
     | some _ =>
       match env.marshalConfig with
       | some configJSON =>
         "export FENCE_CONFIG_JSON=" ++ env.shellQuoteSingle configJSON ++ "\n"
       | none => ""
     | none => "") ++
    "exec " ++ env.shellQuote (landlockWrapperArgs env opts command) ++ "\n"
  else command ++ "\n"

/-- The inner shell script passed to `bash -c` inside the sandbox. -/
def innerScript (env : SandboxEnv) (cfg? : Option Config) (bridge : Option Bridge)
    (rb : Option (List RevSock)) (opts : LinuxSandboxOptions) (command : String) :
    String :=
  (match bridge with
   | some b => bridgeScriptBlock b
   | none => "") ++
  (match rb with
   | some socks => if socks.isEmpty then "" else revScriptBlock socks
   | none => "") ++
  cleanupScriptBlock ++
  commandScriptBlock env cfg? opts command

/-- The final `-- <shell> -c <script>` arguments. -/
def finalArgs (env : SandboxEnv) (cfg? : Option Config) (bridge : Option Bridge)
    (rb : Option (List RevSock)) (opts : LinuxSandboxOptions) (command : String) :
    List String :=
  ["--", env.shellPath, "-c", innerScript env cfg? bridge rb opts command]

/-- Everything after the PID-namespace flag, in source append order. -/
def postNetnsArgs (env : SandboxEnv) (cfg? : Option Config) (bridge : Option Bridge)
    (rb : Option (List RevSock)) (opts : LinuxSandboxOptions) (command : String) :
    List String :=
  seccompArgs env opts ++ fsBaseArgs env cfg? ++ specialMounts ++
    resolvConfArgs env cfg? ++ writableBindArgs env cfg? ++
    crossMountArgs env cfg? ++ denyReadArgs env cfg? ++ mandatoryArgs env cfg? ++
    denyWriteArgs env cfg? ++ bridgeArgs bridge ++ reverseBridgeArgs rb ++
    finalArgs env cfg? bridge rb opts command

/-- The `bwrap` argument vector assembled by
`WrapCommandLinuxWithOptions`. -/
def buildBwrapArgs (env : SandboxEnv) (cfg? : Option Config) (bridge : Option Bridge)
    (rb : Option (List RevSock)) (opts : LinuxSandboxOptions) (command : String) :
    List String :=
  baseArgs ++ netnsArgs env cfg? ++ ["--unshare-pid"] ++
    postNetnsArgs env cfg? bridge rb opts command

/-- The arguments preceding the mandatory dangerous-path section. -/
def argsBeforeMandatory (env : SandboxEnv) (cfg? : Option Config)
    (opts : LinuxSandboxOptions) : List String :=
  baseArgs ++ netnsArgs env cfg? ++ ["--unshare-pid"] ++ seccompArgs env opts ++
    fsBaseArgs env cfg? ++ specialMounts ++ resolvConfArgs env cfg? ++
    writableBindArgs env cfg? ++ crossMountArgs env cfg? ++ denyReadArgs env cfg?

/-- The arguments following the mandatory dangerous-path section. -/
def argsAfterMandatory (env : SandboxEnv) (cfg? : Option Config)
    (bridge : Option Bridge) (rb : Option (List RevSock))
    (opts : LinuxSandboxOptions) (command : String) : List String :=
  denyWriteArgs env cfg? ++ bridgeArgs bridge ++ reverseBridgeArgs rb ++
    finalArgs env cfg? bridge rb opts command

/-- The command string `WrapCommandLinuxWithOptions` returns on success:
the quoted argument vector, behind the seccomp fd redirection when a
filter was generated.  (The preceding `LookPath` failures for `bwrap`
and `bash` abort before any assembly; `env.shellPath` is the successful
lookup result.) -/
def WrapCommandLinuxWithOptionsCmd (env : SandboxEnv) (cfg? : Option Config)
    (bridge : Option Bridge) (rb : Option (List RevSock))
    (opts : LinuxSandboxOptions) (command : String) : String :=
  let quoted := env.shellQuote (buildBwrapArgs env cfg? bridge rb opts command)
  match (if opts.useSeccomp && env.hasSeccomp then env.seccompGen else none) with
  | some filterPath => "exec 3<" ++ env.shellQuoteSingle filterPath ++ "; " ++ quoted
  | none => quoted

/-- A small concrete environment for evaluating the builder: working
directory `/w` containing a `.bashrc`, no home directory, no symlinks,
and network-namespace capability available. -/
def sampleEnv : SandboxEnv :=
  { fileExists := fun p => p == "/w" || p == "/w/.bashrc"
    isDirectory := fun p => p == "/w"
    isSymlink := fun _ => false
    evalSymlinks := fun _ => none
    sameDevice := fun _ _ => true
    expandGlob := fun ps => ps
    lookPath := fun _ => none
    home := none
    cwd := some "/w"
    canUnshareNet := true
    hasSeccomp := false
    isWSL := false
    canUseLandlock := false
    shellPath := "/bin/sh"
    fenceExePath := "/usr/local/bin/fence"
    seccompGen := none
    resolvConfTarget := none
    marshalConfig := none
    shellQuote := fun args => relString args
    shellQuoteSingle := fun s => s }

/-- An environment in which `/link` is a symbolic link resolving to the
regular file `/target`. -/
def symlinkEnv : SandboxEnv :=
  { sampleEnv with
    fileExists := fun p => p == "/target"
    isDirectory := fun _ => false
    isSymlink := fun p => p == "/link"
    evalSymlinks := fun p => if p == "/link" then some "/target" else none
    cwd := some "/" }

/-! ## Structural lemmas about the path helpers

These characterize `goJoin cwd x` for a fixed well-formed relative path
`x`: the result always ends in `x`, preceded (if anything) by a slash.
They let us decide disequalities between joined catalog entries for an
arbitrary working directory. -/

theorem splitCharsAux_append (sep : Char) (xs ys cur) :
    splitCharsAux sep (xs ++ sep :: ys) cur =
      splitCharsAux sep xs cur ++ splitCharsAux sep ys [] := by
  induction xs generalizing cur with
  | nil => simp [splitCharsAux]
  | cons c xs ih =>
    by_cases hc : c = sep <;> simp [splitCharsAux, hc, ih]

theorem splitSlash_append (a b : String) :
    splitSlash (a ++ "/" ++ b) = splitSlash a ++ splitSlash b := by
  unfold splitSlash
  have hdata : (a ++ "/" ++ b).data = a.data ++ '/' :: b.data := by
    rw [String.data_append, String.data_append]
    have h2 : ("/" : String).data = ['/'] := rfl
    rw [h2, List.append_assoc]
    rfl
  rw [hdata, splitCharsAux_append, List.map_append]

theorem cleanStack_append (r : Bool) (l₁ l₂ : List String) (st : List String) :
    cleanStack r st (l₁ ++ l₂) = cleanStack r (cleanStack r st l₁) l₂ := by
  induction l₁ generalizing st with
  | nil => rfl
  | cons c l ih => exact ih (cleanPush r st c)

theorem cleanStack_normal (r : Bool) (A : List String) (st : List String)
    (h : ∀ c ∈ A, c ≠ "" ∧ c ≠ "." ∧ c ≠ "..") :
    cleanStack r st A = A.reverse ++ st := by
  induction A generalizing st with
  | nil => rfl
  | cons c A ih =>
    obtain ⟨hne, hdot, hdd⟩ := h c (List.mem_cons_self _ _)
    have h1 : ¬(c = "" ∨ c = ".") := by simp [hne, hdot]
    simp only [cleanStack, cleanPush, if_neg h1, if_neg hdd]
    rw [ih _ (fun d hd => h d (List.mem_cons_of_mem _ hd))]
    simp

theorem relString_cons (x : String) (l : List String) (hl : l ≠ []) :
    relString (x :: l) = x ++ "/" ++ relString l := by
  rcases l with _ | ⟨y, l⟩
  · exact absurd rfl hl
  · rfl

theorem relString_append (l m : List String) (hl : l ≠ []) (hm : m ≠ []) :
    relString (l ++ m) = relString l ++ "/" ++ relString m := by
  induction l with
  | nil => exact absurd rfl hl
  | cons x l ih =>
    rcases l with _ | ⟨y, l'⟩
    · rw [List.singleton_append, relString_cons x m hm]
      rfl
    · rw [List.cons_append, relString_cons x _ (by simp),
        relString_cons x _ (by simp), ih (by simp) ]
      simp [String.append_assoc]

/-- A relative path suitable for `goJoin` suffix reasoning: nonempty,
with only normal components, and reassembling to itself. -/
def JoinNice (x : String) : Prop :=
  x ≠ "" ∧ splitSlash x ≠ [] ∧
    (∀ c ∈ splitSlash x, c ≠ "" ∧ c ≠ "." ∧ c ≠ "..") ∧
    relString (splitSlash x) = x

instance (x : String) : Decidable (JoinNice x) := by
  unfold JoinNice; infer_instance

theorem renderPath_cons (r : Bool) (c : String) (rest : List String) :
    renderPath r (c :: rest) = (if r then "/" else "") ++ relString (c :: rest) := rfl

theorem renderPath_append_nice (r : Bool) (S : List String) (x : String)
    (hsx : splitSlash x ≠ []) (hrel : relString (splitSlash x) = x) :
    ∃ p, renderPath r (S ++ splitSlash x) = p ++ x ∧
      (p = "" ∨ ∃ q, p.data = q ++ ['/']) := by
  rcases S with _ | ⟨s0, Srest⟩
  · rcases hA : splitSlash x with _ | ⟨c, rest⟩
    · exact absurd hA hsx
    · by_cases hroot : r
      · refine ⟨"/", ?_, Or.inr ⟨[], rfl⟩⟩
        rw [List.nil_append, renderPath_cons, if_pos hroot, ← hA, hrel]
      · refine ⟨"", ?_, Or.inl rfl⟩
        rw [List.nil_append, renderPath_cons, if_neg hroot, ← hA, hrel]
  · have hS1 : (s0 :: Srest : List String) ≠ [] := by simp
    refine ⟨(if r then "/" else "") ++ relString (s0 :: Srest) ++ "/", ?_, ?_⟩
    · rw [List.cons_append, renderPath_cons, ← List.cons_append,
        relString_append _ _ hS1 hsx, hrel]
      simp [String.append_assoc]
    · refine Or.inr ⟨((if r then "/" else "") ++ relString (s0 :: Srest)).data, ?_⟩
      rw [String.data_append]

theorem goClean_of_nice (x : String) (hx : JoinNice x) :
    ∃ p, goClean x = p ++ x ∧ (p = "" ∨ ∃ q, p.data = q ++ ['/']) := by
  obtain ⟨hne, hsne, hnorm, hrel⟩ := hx
  have hclean : goClean x =
      renderPath (goIsAbs x) ((cleanStack (goIsAbs x) [] (splitSlash x)).reverse) := by
    unfold goClean
    rw [if_neg hne]
  rw [hclean, cleanStack_normal _ _ _ hnorm]
  simp only [List.append_nil, List.reverse_reverse]
  have := renderPath_append_nice (goIsAbs x) [] x hsne hrel
  rwa [List.nil_append] at this

theorem goJoin_suffix (cwd x : String) (hx : JoinNice x) :
    ∃ p, goJoin cwd x = p ++ x ∧ (p = "" ∨ ∃ q, p.data = q ++ ['/']) := by
  obtain ⟨hne, hsne, hnorm, hrel⟩ := hx
  by_cases hcwd : cwd = ""
  · subst hcwd
    unfold goJoin
    rw [if_pos rfl, if_neg hne]
    exact goClean_of_nice x ⟨hne, hsne, hnorm, hrel⟩
  · unfold goJoin
    rw [if_neg hcwd, if_neg hne]
    have hsne' : cwd ++ "/" ++ x ≠ "" := by
      intro h
      have hd : (cwd ++ "/" ++ x).data = [] := by rw [h]
      rw [String.data_append, String.data_append] at hd
      simp at hd
    have hclean : goClean (cwd ++ "/" ++ x) =
        renderPath (goIsAbs (cwd ++ "/" ++ x))
          ((cleanStack (goIsAbs (cwd ++ "/" ++ x)) []
            (splitSlash cwd ++ splitSlash x)).reverse) := by
      unfold goClean
      rw [if_neg hsne', splitSlash_append]
    rw [hclean, cleanStack_append, cleanStack_normal _ _ _ hnorm]
    rw [List.reverse_append, List.reverse_reverse]
    exact renderPath_append_nice _ _ x hsne hrel

theorem join_ne_join (cwd x y : String) (hx : JoinNice x) (hy : JoinNice y)
    (hxy : ¬ x.data <:+ y.data) (hyx : ¬ y.data <:+ x.data) :
    goJoin cwd x ≠ goJoin cwd y := by
  obtain ⟨p, hp, -⟩ := goJoin_suffix cwd x hx
  obtain ⟨p', hp', -⟩ := goJoin_suffix cwd y hy
  intro h
  rw [hp, hp'] at h
  have hdata : p.data ++ x.data = p'.data ++ y.data := by
    have := congrArg String.data h
    rwa [String.data_append, String.data_append] at this
  have h1 : x.data <:+ p'.data ++ y.data := hdata ▸ List.suffix_append p.data x.data
  have h2 : y.data <:+ p'.data ++ y.data := List.suffix_append p'.data y.data
  rcases List.suffix_or_suffix_of_suffix h1 h2 with h3 | h3
  · exact hxy h3
  · exact hyx h3

theorem join_ne_const (cwd x g : String) (hx : JoinNice x)
    (hxg : ¬ x.data <:+ g.data) : goJoin cwd x ≠ g := by
  obtain ⟨p, hp, -⟩ := goJoin_suffix cwd x hx
  intro h
  apply hxg
  have hdata : p.data ++ x.data = g.data := by
    have := congrArg String.data (hp ▸ h)
    rwa [String.data_append] at this
  exact hdata ▸ List.suffix_append p.data x.data

theorem config_join_notmem (cwd : String) :
    goJoin cwd ".git/config" ∉ GetMandatoryDenyPatterns cwd true := by
  intro h
  simp [GetMandatoryDenyPatterns, DangerousFiles, DangerousDirectories] at h
  rcases h with h|h|h|h|h|h|h|h|h|h|h|h|h|h|h|h|h|h|h|h|h|h|h|h|h|h|h|h <;>
    first
      | exact absurd h (by decide)
      | (refine absurd h (join_ne_join cwd ".git/config" _ ?_ ?_ ?_ ?_) <;> decide)
      | (refine absurd h (join_ne_const cwd ".git/config" _ ?_ ?_) <;> decide)

theorem notmem_pair (cwd z g glob : String) (hz : JoinNice z)
    (h1 : ¬ z.data <:+ g.data) (h2 : g ≠ glob) :
    g ∉ [goJoin cwd z, glob] := by
  intro h
  rcases List.mem_cons.1 h with he | h'
  · exact (join_ne_const cwd z g hz h1) he.symm
  · rcases List.mem_cons.1 h' with he | h0
    · exact h2 he
    · exact absurd h0 (List.not_mem_nil _)

theorem config_glob_notmem (cwd : String) :
    "**/.git/config" ∉ GetMandatoryDenyPatterns cwd true := by
  intro h
  rw [GetMandatoryDenyPatterns, if_neg (by simp), List.append_nil] at h
  rcases List.mem_append.1 h with h1 | hH
  · rcases List.mem_append.1 h1 with hF | hD
    · obtain ⟨f, hf, hmem⟩ := List.mem_flatMap.1 hF
      fin_cases hf <;>
        exact notmem_pair cwd _ _ _ (by decide) (by decide) (by decide) hmem
    · obtain ⟨d, hd, hmem⟩ := List.mem_flatMap.1 hD
      fin_cases hd <;>
        exact notmem_pair cwd _ _ _ (by decide) (by decide) (by decide) hmem
  · exact notmem_pair cwd ".git/hooks" "**/.git/config" "**/.git/hooks/**"
      (by decide) (by decide) (by decide) hH

/-- C3: for every working directory `cwd` and boolean `allowGitConfig`,
`GetMandatoryDenyPatterns cwd allowGitConfig` contains, for each entry of
the dangerous-file and dangerous-directory catalogs, both the cwd-joined
path and a recursive glob pattern, always contains the `.git/hooks`
entries, and contains the `.git/config` entries (cwd-joined and glob) if
and only if `allowGitConfig` is false. -/
theorem c3_mandatory_deny_patterns (cwd : String) (allowGitConfig : Bool) :
    (∀ f ∈ DangerousFiles,
      goJoin cwd f ∈ GetMandatoryDenyPatterns cwd allowGitConfig ∧
        ("**/" ++ f) ∈ GetMandatoryDenyPatterns cwd allowGitConfig) ∧
    (∀ d ∈ DangerousDirectories,
      goJoin cwd d ∈ GetMandatoryDenyPatterns cwd allowGitConfig ∧
        ("**/" ++ d ++ "/**") ∈ GetMandatoryDenyPatterns cwd allowGitConfig) ∧
    (goJoin cwd ".git/hooks" ∈ GetMandatoryDenyPatterns cwd allowGitConfig ∧
      "**/.git/hooks/**" ∈ GetMandatoryDenyPatterns cwd allowGitConfig) ∧
    ((goJoin cwd ".git/config" ∈ GetMandatoryDenyPatterns cwd allowGitConfig ∧
      "**/.git/config" ∈ GetMandatoryDenyPatterns cwd allowGitConfig) ↔
      allowGitConfig = false) := by
  refine ⟨?_, ?_, ⟨?_, ?_⟩, ?_⟩
  · intro f hf
    constructor
    · unfold GetMandatoryDenyPatterns
      exact List.mem_append_left _ (List.mem_append_left _ (List.mem_append_left _
        (List.mem_flatMap.mpr ⟨f, hf, by simp⟩)))
    · unfold GetMandatoryDenyPatterns
      exact List.mem_append_left _ (List.mem_append_left _ (List.mem_append_left _
        (List.mem_flatMap.mpr ⟨f, hf, by simp⟩)))
  · intro d hd
    constructor
    · unfold GetMandatoryDenyPatterns
      exact List.mem_append_left _ (List.mem_append_left _ (List.mem_append_right _
        (List.mem_flatMap.mpr ⟨d, hd, by simp⟩)))
    · unfold GetMandatoryDenyPatterns
      exact List.mem_append_left _ (List.mem_append_left _ (List.mem_append_right _
        (List.mem_flatMap.mpr ⟨d, hd, by simp⟩)))
  · unfold GetMandatoryDenyPatterns
    exact List.mem_append_left _ (List.mem_append_right _ (by simp))
  · unfold GetMandatoryDenyPatterns
    exact List.mem_append_left _ (List.mem_append_right _ (by simp))
  · constructor
    · rintro ⟨h1, -⟩
      by_contra hne
      have htrue : allowGitConfig = true := by
        cases allowGitConfig
        · exact absurd rfl hne
        · rfl
      rw [htrue] at h1
      exact config_join_notmem cwd h1
    · intro hfalse
      rw [hfalse]
      constructor
      · unfold GetMandatoryDenyPatterns
        refine List.mem_append_right _ ?_
        rw [if_pos (by simp)]
        simp
      · unfold GetMandatoryDenyPatterns
        refine List.mem_append_right _ ?_
        rw [if_pos (by simp)]
        simp

/-- Witness for C3 at a concrete working directory. -/
theorem c3_mandatory_deny_patterns_witness :
    goJoin "/home/user/project" ".bashrc" ∈
      GetMandatoryDenyPatterns "/home/user/project" false ∧
    "**/.git/config" ∈ GetMandatoryDenyPatterns "/home/user/project" false ∧
    ¬(goJoin "/home/user/project" ".git/config" ∈
        GetMandatoryDenyPatterns "/home/user/project" true ∧
      "**/.git/config" ∈ GetMandatoryDenyPatterns "/home/user/project" true) := by
  have h := c3_mandatory_deny_patterns "/home/user/project" false
  have h' := c3_mandatory_deny_patterns "/home/user/project" true
  refine ⟨(h.1 ".bashrc" (by decide)).1, (h.2.2.2.mpr rfl).2, fun hpair => ?_⟩
  exact absurd (h'.2.2.2.mp hpair) (by decide)

theorem strHasPre_iff (pre s : String) : strHasPre pre s = true ↔ pre.data <+: s.data := by
  simp [strHasPre, List.isPrefixOf_iff_prefix]

/-- C7: `NormalizePath` maps `~` to the home directory and `~/x` to
`home/x`; maps `./x`, `../x`, and bare relative glob-free patterns to
absolute paths resolved against the working directory; resolves symlinks
on glob-free normalized results, keeping the unresolved path when
resolution fails; and never symlink-resolves a glob-carrying result. -/
theorem c7_normalize_path (env : PathEnv) :
    (normalizeCore env "~" = env.home) ∧
    (∀ x : String, normalizeCore env ("~/" ++ x) = goJoin env.home x) ∧
    (∀ p : String, strHasPre "./" p = true ∨ strHasPre "../" p = true →
      normalizeCore env p = goAbs env.cwd (goJoin (env.cwd.getD "") p)) ∧
    (∀ p : String, ¬goIsAbs p → ¬ContainsGlobChars p → p ≠ "~" →
      ¬strHasPre "~/" p →
      normalizeCore env p = goAbs env.cwd (goJoin (env.cwd.getD "") p)) ∧
    (∀ p : String, ¬ContainsGlobChars (normalizeCore env p) →
      NormalizePath env p =
        (match env.evalSymlinks (normalizeCore env p) with
         | some resolved => resolved
         | none => normalizeCore env p)) ∧
    (∀ p : String, ContainsGlobChars (normalizeCore env p) →
      NormalizePath env p = normalizeCore env p) := by
  refine ⟨?_, ?_, ?_, ?_, ?_, ?_⟩
  · simp [normalizeCore]
  · intro x
    have hne : ("~/" ++ x) ≠ "~" := by
      intro h
      have hd := congrArg String.data h
      rw [String.data_append] at hd
      simp [show ("~/" : String).data = ['~', '/'] from rfl] at hd
    have hpre : strHasPre "~/" ("~/" ++ x) = true := by
      rw [strHasPre_iff, String.data_append]
      exact List.prefix_append _ _
    have hdrop : ("~/" ++ x).drop 2 = x := by
      rw [String.drop_eq]
      have hd : ("~/" ++ x).data = '~' :: '/' :: x.data := by
        rw [String.data_append]
        rfl
      rw [hd]
      rfl
    simp only [normalizeCore]
    rw [if_neg hne, if_pos hpre, hdrop]
  · intro p hp
    have hdot : p.data.head? = some '.' := by
      rcases hp with h | h
      · obtain ⟨t, ht⟩ := (strHasPre_iff _ _).1 h
        rw [← ht]
        rfl
      · obtain ⟨t, ht⟩ := (strHasPre_iff _ _).1 h
        rw [← ht]
        rfl
    have hne : p ≠ "~" := by
      intro h
      rw [h] at hdot
      simp [show ("~" : String).data = ['~'] from rfl] at hdot
    have hnp : ¬(strHasPre "~/" p = true) := by
      intro h
      obtain ⟨t, ht⟩ := (strHasPre_iff _ _).1 h
      rw [← ht] at hdot
      simp [show ("~/" : String).data = ['~', '/'] from rfl] at hdot
    simp only [normalizeCore]
    rw [if_neg hne, if_neg hnp, if_pos hp]
  · intro p habs hglob hne hnp
    simp only [normalizeCore]
    rw [if_neg hne, if_neg hnp]
    by_cases hrel : strHasPre "./" p = true ∨ strHasPre "../" p = true
    · rw [if_pos hrel]
    · rw [if_neg hrel, if_pos ⟨habs, hglob⟩]
  · intro p hglob
    simp only [NormalizePath]
    rw [if_neg hglob]
  · intro p hglob
    simp only [NormalizePath]
    rw [if_pos hglob]

/-- Witness for C7 at a concrete environment. -/
theorem c7_normalize_path_witness :
    normalizeCore ⟨"/home/u", some "/w", fun _ => none⟩ "~" = "/home/u" ∧
    normalizeCore ⟨"/home/u", some "/w", fun _ => none⟩ ("~/" ++ "x") =
      goJoin "/home/u" "x" ∧
    normalizeCore ⟨"/home/u", some "/w", fun _ => none⟩ "./a" =
      goAbs (some "/w") (goJoin "/w" "./a") ∧
    normalizeCore ⟨"/home/u", some "/w", fun _ => none⟩ "rel" =
      goAbs (some "/w") (goJoin "/w" "rel") ∧
    NormalizePath ⟨"/home/u", some "/w", fun _ => none⟩ "/a" = "/a" ∧
    NormalizePath ⟨"/home/u", some "/w", fun _ => none⟩ "/a/*" = "/a/*" := by
  have h := c7_normalize_path ⟨"/home/u", some "/w", fun _ => none⟩
  refine ⟨h.1, h.2.1 "x", h.2.2.1 "./a" (Or.inl (by decide)), ?_, ?_, ?_⟩
  · exact h.2.2.2.1 "rel" (by decide) (by decide) (by decide) (by decide)
  · exact (h.2.2.2.2.1 "/a" (by decide)).trans (by decide)
  · exact h.2.2.2.2.2 "/a/*" (by decide)

theorem b64_lookup (n : Nat) (h : n < 64) : b64DecChar (b64Char n) = some n := by
  have hall : ∀ m ∈ List.range 64, b64DecChar (b64Char m) = some m := by decide
  exact hall n (List.mem_range.mpr h)

theorem b64Char_ne_pad (n : Nat) (h : n < 64) : b64Char n ≠ '=' := by
  have hall : ∀ m ∈ List.range 64, b64Char m ≠ '=' := by decide
  exact hall n (List.mem_range.mpr h)

theorem b64_decode_encode : ∀ bs : List Nat, (∀ b ∈ bs, b < 256) →
    b64Decode (b64Encode bs) = some bs
  | [], _ => rfl
  | [b0], h => by
    have hb0 : b0 < 256 := h b0 (by simp)
    have h1 : b0 / 4 < 64 := by omega
    have h2 : b0 % 4 * 16 < 64 := by omega
    simp only [b64Encode, b64Decode, b64_lookup _ h1, b64_lookup _ h2]
    simp
    omega
  | [b0, b1], h => by
    have hb0 : b0 < 256 := h b0 (by simp)
    have hb1 : b1 < 256 := h b1 (by simp)
    have h1 : b0 / 4 < 64 := by omega
    have h2 : b0 % 4 * 16 + b1 / 16 < 64 := by omega
    have h3 : b1 % 16 * 4 < 64 := by omega
    simp only [b64Encode, b64Decode, b64_lookup _ h1, b64_lookup _ h2, b64_lookup _ h3]
    simp [b64Char_ne_pad _ h3]
    constructor
    · omega
    · omega
  | b0 :: b1 :: b2 :: rest, h => by
    have hb0 : b0 < 256 := h b0 (by simp)
    have hb1 : b1 < 256 := h b1 (by simp)
    have hb2 : b2 < 256 := h b2 (by simp)
    have h1 : b0 / 4 < 64 := by omega
    have h2 : b0 % 4 * 16 + b1 / 16 < 64 := by omega
    have h3 : b1 % 16 * 4 + b2 / 64 < 64 := by omega
    have h4 : b2 % 64 < 64 := by omega
    have ih := b64_decode_encode rest (fun b hb => h b (by simp [hb]))
    simp only [b64Encode, b64Decode, b64_lookup _ h1, b64_lookup _ h2,
      b64_lookup _ h3, b64_lookup _ h4, ih]
    simp [b64Char_ne_pad _ h3, b64Char_ne_pad _ h4]
    refine ⟨by omega, by omega, by omega⟩

/-- C10: the sandbox-monitoring token round-trips — decoding the encoded
command returns the command itself when it is at most 100 bytes, and
exactly its first 100 bytes otherwise, so the token never carries more
than 100 bytes of the command. -/
theorem c10_sandboxed_command_roundtrip (command : List Nat)
    (h : ∀ b ∈ command, b < 256) :
    DecodeSandboxedCommand (EncodeSandboxedCommand command) =
      some (command.take 100) ∧
    (command.length ≤ 100 →
      DecodeSandboxedCommand (EncodeSandboxedCommand command) = some command) := by
  have hmain : DecodeSandboxedCommand (EncodeSandboxedCommand command) =
      some (command.take 100) := by
    unfold EncodeSandboxedCommand DecodeSandboxedCommand
    by_cases hlen : command.length > 100
    · rw [if_pos hlen]
      exact b64_decode_encode _ (fun b hb => h b (List.mem_of_mem_take hb))
    · rw [if_neg hlen]
      rw [b64_decode_encode _ h]
      rw [List.take_of_length_le (by omega)]
  refine ⟨hmain, fun hle => ?_⟩
  rw [hmain, List.take_of_length_le (by omega)]

/-- Witness for C10 at a concrete command. -/
theorem c10_sandboxed_command_roundtrip_witness :
    (∀ b ∈ ([104, 105, 33] : List Nat), b < 256) ∧
    DecodeSandboxedCommand (EncodeSandboxedCommand [104, 105, 33]) =
      some [104, 105, 33] := by
  refine ⟨by decide, ?_⟩
  exact (c10_sandboxed_command_roundtrip [104, 105, 33] (by decide)).2 (by decide)

theorem resolve_user_norm (env : ShellEnv) (login : Bool) :
    ResolveExecutionShell env ShellModeUser login =
      (match resolveShellPath env ShellModeUser with
       | Except.error e => Except.error e
       | Except.ok p => Except.ok (p, if login then "-lc" else "-c")) := rfl

theorem resolveShellPath_user (env : ShellEnv) :
    resolveShellPath env ShellModeUser =
      (if goTrimSpace env.shellVar = "" then Except.error ShellError.shellUnset
       else if ¬goIsAbs (goTrimSpace env.shellVar) then
         Except.error ShellError.shellNotAbsolute
       else if ¬allowedUserShells.contains (goBase (goTrimSpace env.shellVar)) then
         Except.error ShellError.shellNotAllowed
       else statExecCheck (goTrimSpace env.shellVar)
         (env.stat (goTrimSpace env.shellVar))) := rfl

/-- C8: `ResolveExecutionShell` in mode `user` errors exactly when
`$SHELL` (trimmed) is empty, not absolute, has a basename outside the
allow-list, or does not stat as an executable non-directory; on success
it returns the `$SHELL` path (mode `user`) or the looked-up bash path
(mode `default`), with flag `-lc` when `login` and `-c` otherwise; the
empty mode is the default mode and any other mode is an error. -/
theorem c8_resolve_execution_shell (env : ShellEnv) (login : Bool) :
    ((∃ e, ResolveExecutionShell env ShellModeUser login = Except.error e) ↔
      (goTrimSpace env.shellVar = "" ∨
       ¬goIsAbs (goTrimSpace env.shellVar) ∨
       goBase (goTrimSpace env.shellVar) ∉ allowedUserShells ∨
       (match env.stat (goTrimSpace env.shellVar) with
        | none => True
        | some (isDir, fmode) => isDir = true ∨ Nat.land fmode 0o111 = 0))) ∧
    (∀ p flag, ResolveExecutionShell env ShellModeUser login = Except.ok (p, flag) →
      p = goTrimSpace env.shellVar ∧ flag = (if login then "-lc" else "-c")) ∧
    (∀ p flag, ResolveExecutionShell env ShellModeDefault login = Except.ok (p, flag) →
      env.lookPathBash = some p ∧ flag = (if login then "-lc" else "-c")) ∧
    (ResolveExecutionShell env "" login = ResolveExecutionShell env ShellModeDefault login) ∧
    (∀ mode, mode ≠ "" → mode ≠ ShellModeDefault → mode ≠ ShellModeUser →
      ResolveExecutionShell env mode login = Except.error ShellError.invalidMode) := by
  refine ⟨?_, ?_, ?_, rfl, ?_⟩
  · rcases hstat : env.stat (goTrimSpace env.shellVar) with _ | ⟨isDir, fmode⟩ <;>
      simp only [resolve_user_norm, resolveShellPath_user, hstat, statExecCheck] <;>
      split_ifs <;>
      simp_all
  · intro p flag h
    rw [resolve_user_norm, resolveShellPath_user] at h
    rcases hstat : env.stat (goTrimSpace env.shellVar) with _ | ⟨isDir, fmode⟩ <;>
        rw [hstat] at h <;>
        simp only [statExecCheck] at h <;>
        split_ifs at h <;>
        simp_all
  · intro p flag h
    have hd : ResolveExecutionShell env ShellModeDefault login =
        (match env.lookPathBash with
         | some path => Except.ok (path, if login then "-lc" else "-c")
         | none => Except.error ShellError.bashNotFound) := by
      rcases hl : env.lookPathBash with _ | path <;>
        simp [ResolveExecutionShell, resolveShellPath, hl]
    rw [hd] at h
    rcases hl : env.lookPathBash with _ | path <;> rw [hl] at h <;> simp_all
  · intro mode h1 h2 h3
    simp [ResolveExecutionShell, resolveShellPath, h1, h2, h3]

/-- Witness for C8 at a concrete environment. -/
theorem c8_resolve_execution_shell_witness :
    (∃ e, ResolveExecutionShell ⟨"/bin/tcsh", some "/bin/bash", fun _ => some (false, 0o755)⟩
      ShellModeUser false = Except.error e) ∧
    ResolveExecutionShell ⟨"/bin/zsh", some "/bin/bash", fun p => if p = "/bin/zsh" then some (false, 0o755) else none⟩
      ShellModeUser true = Except.ok ("/bin/zsh", "-lc") ∧
    ResolveExecutionShell ⟨"", some "/bin/bash", fun _ => none⟩ "bogus" false =
      Except.error ShellError.invalidMode := by
  have h1 := (c8_resolve_execution_shell
    ⟨"/bin/tcsh", some "/bin/bash", fun _ => some (false, 0o755)⟩ false).1
  have h3 := (c8_resolve_execution_shell ⟨"", some "/bin/bash", fun _ => none⟩ false).2.2.2.2
  refine ⟨h1.mpr ?_, by rfl, h3 "bogus" (by decide) (by decide) (by decide)⟩
  right
  right
  left
  decide

theorem collectPaths_spec (l : List String) : ∀ seen : List String,
    ((collectPaths seen l).1.Nodup) ∧
    (∀ x ∈ (collectPaths seen l).1, x ∉ seen) ∧
    (∀ x, x ∈ (collectPaths seen l).2 ↔ x ∈ seen ∨ x ∈ (collectPaths seen l).1) := by
  induction l with
  | nil => intro seen; simp [collectPaths]
  | cons p rest ih =>
    intro seen
    by_cases hc : p ∈ seen
    · have hcb : seen.contains p = true := by simpa using hc
      simpa [collectPaths, hcb, hc] using ih seen
    · have hc : ¬(seen.contains p = true) := by simpa using hc
      have hpseen : p ∉ seen := by simpa using hc
      obtain ⟨ihnodup, ihnotin, ihseen⟩ := ih (seen ++ [p])
      refine ⟨?_, ?_, ?_⟩
      · simp only [collectPaths, if_neg hc, List.nodup_cons]
        refine ⟨fun hmem => ?_, ihnodup⟩
        exact ihnotin p hmem (by simp)
      · intro x hx
        simp only [collectPaths, if_neg hc, List.mem_cons] at hx
        rcases hx with rfl | hx
        · exact hpseen
        · intro hxs
          exact ihnotin x hx (by simp [hxs])
      · intro x
        simp only [collectPaths, if_neg hc]
        rw [ihseen x]
        simp [or_assoc]

theorem rulesFold_spec (env : SandboxEnv) (rules : List String) :
    ∀ seen : List String,
    ((rulesFold env seen rules).1.Nodup) ∧
    (∀ x ∈ (rulesFold env seen rules).1, x ∉ seen) ∧
    (∀ x, x ∈ (rulesFold env seen rules).2 ↔
      x ∈ seen ∨ x ∈ (rulesFold env seen rules).1) := by
  induction rules with
  | nil => intro seen; simp [rulesFold]
  | cons rule rest ih =>
    intro seen
    rcases htok : runtimeExecutableToken rule with _ | token
    · simpa [rulesFold, htok] using ih seen
    · obtain ⟨cnodup, cnotin, cseen⟩ :=
        collectPaths_spec (resolveExecutablePaths env token) seen
      set s1 := (collectPaths seen (resolveExecutablePaths env token)).2 with hs1
      obtain ⟨ihnodup, ihnotin, ihseen⟩ := ih s1
      have hps : rulesFold env seen (rule :: rest) =
          ((collectPaths seen (resolveExecutablePaths env token)).1 ++
            (rulesFold env s1 rest).1, (rulesFold env s1 rest).2) := by
        simp [rulesFold, htok]
      refine ⟨?_, ?_, ?_⟩
      · rw [hps]
        simp only [List.nodup_append]
        refine ⟨cnodup, ihnodup, ?_⟩
        intro x hx hx2
        exact ihnotin x hx2 ((cseen x).2 (Or.inr hx))
      · intro x hx
        rw [hps] at hx
        simp only [List.mem_append] at hx
        rcases hx with hx | hx
        · exact cnotin x hx
        · intro hxs
          exact ihnotin x hx ((cseen x).2 (Or.inl hxs))
      · intro x
        rw [hps]
        simp only [List.mem_append]
        rw [ihseen x, cseen x]
        tauto

/-- C9: a command-deny rule contributes runtime-denied executable paths
only when it tokenizes to a single non-empty token free of shell
metacharacters (rules with arguments such as `git push` or `dd if=`
contribute nothing), and the list returned by
`GetRuntimeDeniedExecutablePaths` is sorted and free of duplicates. -/
theorem c9_runtime_denied_paths (env : SandboxEnv) (cfg : Config) :
    (∀ rule tok, runtimeExecutableToken rule = some tok →
      (tokenizeCommand (goTrimSpace rule)).length = 1 ∧ tok ≠ "" ∧
        ∀ c ∈ tok.data, c ∉ shellMetaChars) ∧
    runtimeExecutableToken "git push" = none ∧
    runtimeExecutableToken "dd if=" = none ∧
    (∀ seen rules rule, runtimeExecutableToken rule = none →
      rulesFold env seen (rule :: rules) = rulesFold env seen rules) ∧
    (GetRuntimeDeniedExecutablePaths env (some cfg)).Sorted (· ≤ ·) ∧
    (GetRuntimeDeniedExecutablePaths env (some cfg)).Nodup := by
  refine ⟨?_, by decide, by decide, ?_, ?_, ?_⟩
  · intro rule tok h
    simp only [runtimeExecutableToken] at h
    split_ifs at h with h1 h2 h3 h4
    obtain rfl := Option.some.inj h
    refine ⟨by omega, by simpa using h3, ?_⟩
    intro c hc hm
    exact h4 (List.any_eq_true.mpr ⟨c, hc, by simpa using hm⟩)
  · intro seen rules rule h
    simp [rulesFold, h]
  · have hp : (GetRuntimeDeniedExecutablePaths env (some cfg)).Pairwise
        (fun a b : String => decide (a ≤ b) = true) := by
      unfold GetRuntimeDeniedExecutablePaths goSortStrings
      apply List.sorted_mergeSort
      · intro a b c h1 h2
        simp only [decide_eq_true_eq] at *
        exact le_trans h1 h2
      · intro a b
        simp [le_total]
    exact hp.imp fun h => of_decide_eq_true h
  · have hraw := (rulesFold_spec env (cfg.command.deny ++
      (if UseDefaultDeniedCommands cfg.command then DefaultDeniedCommands else [])) []).1
    unfold GetRuntimeDeniedExecutablePaths goSortStrings
    exact ((List.mergeSort_perm _ _).nodup_iff).mpr hraw

/-- Witness for C9 at a concrete environment and policy. -/
theorem c9_runtime_denied_paths_witness :
    runtimeExecutableToken "git push" = none ∧
    runtimeExecutableToken "ls" = some "ls" ∧
    (tokenizeCommand (goTrimSpace "ls")).length = 1 := by
  have h := c9_runtime_denied_paths
    { fileExists := fun _ => false, isDirectory := fun _ => false,
      isSymlink := fun _ => false, evalSymlinks := fun _ => none,
      sameDevice := fun _ _ => true, expandGlob := fun _ => [],
      lookPath := fun _ => none, home := none, cwd := none,
      canUnshareNet := false, hasSeccomp := false, isWSL := false,
      canUseLandlock := false, shellPath := "", fenceExePath := "",
      seccompGen := none, resolvConfTarget := none, marshalConfig := none,
      shellQuote := fun _ => "", shellQuoteSingle := fun s => s }
    { command := { deny := ["ls", "git push"] } }
  exact ⟨h.2.1, by decide, (h.1 "ls" "ls" (by decide)).1⟩

mutual

/-- Results of the walk sit at most `maxDepth` subdirectory levels below
the root, except for git hooks and config results, which may sit one
level deeper because the `.git` peek does not count against the depth
limit. -/
theorem walkNode_depth (d : Nat) (parent : List String) :
    ∀ (n : FsNode), ∀ r ∈ walkNode d parent n,
      r.length ≤ d + 1 ∨
      (((([".git", "hooks"] : List String) <:+ r) ∨
        (([".git", "config"] : List String) <:+ r)) ∧ r.length ≤ d + 2)
  | .file name => by
    intro r hr
    simp only [walkNode] at hr
    by_cases h1 : (parent ++ [name]).length = 1
    · rw [if_pos h1] at hr
      exact absurd hr (List.not_mem_nil _)
    rw [if_neg h1] at hr
    by_cases h2 : DangerousFiles.contains name = true ∧ (parent ++ [name]).length - 1 ≤ d
    · rw [if_pos h2] at hr
      rcases List.mem_singleton.1 hr with rfl
      left
      have := h2.2
      omega
    · rw [if_neg h2] at hr
      exact absurd hr (List.not_mem_nil _)
  | .dir name children => by
    intro r hr
    simp only [walkNode] at hr
    by_cases hnm : name = "node_modules"
    · rw [if_pos hnm] at hr
      exact absurd hr (List.not_mem_nil _)
    rw [if_neg hnm] at hr
    by_cases hgit : name = ".git"
    · rw [if_pos hgit] at hr
      by_cases hrange : 1 ≤ (parent ++ [name]).length - 1 ∧ (parent ++ [name]).length - 1 ≤ d
      · rw [if_pos hrange] at hr
        have hlen : (parent ++ [name]).length - 1 ≤ d := hrange.2
        rcases List.mem_append.1 hr with h | h
        · by_cases hh : hasHooksDir children = true
          · rw [if_pos hh] at h
            rcases List.mem_singleton.1 h with rfl
            refine Or.inr ⟨Or.inl ⟨parent, by rw [hgit]; simp⟩, ?_⟩
            simp only [List.length_append, List.length_cons, List.length_nil] at hlen ⊢
            omega
          · rw [if_neg hh] at h
            exact absurd h (List.not_mem_nil _)
        · by_cases hc : hasConfigFile children = true
          · rw [if_pos hc] at h
            rcases List.mem_singleton.1 h with rfl
            refine Or.inr ⟨Or.inr ⟨parent, by rw [hgit]; simp⟩, ?_⟩
            simp only [List.length_append, List.length_cons, List.length_nil] at hlen ⊢
            omega
          · rw [if_neg hc] at h
            exact absurd h (List.not_mem_nil _)
      · rw [if_neg hrange] at hr
        exact absurd hr (List.not_mem_nil _)
    rw [if_neg hgit] at hr
    by_cases hone : (parent ++ [name]).length = 1
    · rw [if_pos hone] at hr
      exact walkChildren_depth d (parent ++ [name]) children r hr
    rw [if_neg hone] at hr
    by_cases hdeep : (parent ++ [name]).length - 1 > d
    · rw [if_pos hdeep] at hr
      exact absurd hr (List.not_mem_nil _)
    rw [if_neg hdeep] at hr
    by_cases hdd : DangerousDirectories.contains name = true ∧ (parent ++ [name]).length - 1 ≤ d
    · rw [if_pos hdd] at hr
      rcases List.mem_singleton.1 hr with rfl
      left
      omega
    rw [if_neg hdd] at hr
    by_cases hmc : multiCompBoundaryMatch d ((parent ++ [name]).length - 1)
        (relString (parent ++ [name])) = true
    · rw [if_pos hmc] at hr
      rcases List.mem_singleton.1 hr with rfl
      left
      omega
    rw [if_neg hmc] at hr
    exact walkChildren_depth d (parent ++ [name]) children r hr

/-- The depth bound of `walkNode_depth`, over a list of siblings. -/
theorem walkChildren_depth (d : Nat) (parent : List String) :
    ∀ (cs : List FsNode), ∀ r ∈ walkChildren d parent cs,
      r.length ≤ d + 1 ∨
      (((([".git", "hooks"] : List String) <:+ r) ∨
        (([".git", "config"] : List String) <:+ r)) ∧ r.length ≤ d + 2)
  | [] => by
    intro r hr
    simp only [walkChildren] at hr
    exact absurd hr (List.not_mem_nil _)
  | c :: cs => by
    intro r hr
    simp only [walkChildren] at hr
    rcases List.mem_append.1 hr with h | h
    · exact walkNode_depth d parent c r h
    · exact walkChildren_depth d parent cs r h

end

/-- A relative path whose last two components are `not.claude` and
`commands` never passes the component-boundary check for a
multi-component dangerous directory. -/
theorem multiComp_no_notclaude (d sub : Nat) (pre : List String) :
    multiCompBoundaryMatch d sub (relString (pre ++ ["not.claude", "commands"])) = false := by
  obtain ⟨Q, hQ⟩ : ∃ Q, (relString (pre ++ ["not.claude", "commands"])).data =
      Q ++ ("not.claude/commands" : String).data := by
    by_cases hpre : pre = []
    · subst hpre
      exact ⟨[], by decide⟩
    · refine ⟨(relString pre).data ++ ['/'], ?_⟩
      rw [relString_append pre _ hpre (by simp),
        String.data_append (relString pre ++ "/") (relString ["not.claude", "commands"]),
        String.data_append (relString pre) "/"]
      have h1 : ("/" : String).data = ['/'] := by decide
      have h2 : (relString ["not.claude", "commands"]).data =
          ("not.claude/commands" : String).data := by decide
      rw [h1, h2]
  have hL19 : ("not.claude/commands" : String).data.length = 19 := by decide
  have hlen : (relString (pre ++ ["not.claude", "commands"])).data.length = Q.length + 19 := by
    rw [hQ, List.length_append, hL19]
  by_contra hcon
  rw [Bool.not_eq_false] at hcon
  rw [multiCompBoundaryMatch] at hcon
  obtain ⟨dd, hdd, hconj⟩ := List.any_eq_true.1 hcon
  simp only [Bool.and_eq_true] at hconj
  obtain ⟨⟨⟨hslash, -⟩, hsuf⟩, hbound⟩ := hconj
  fin_cases hdd
  · exact absurd hslash (by decide)
  · exact absurd hslash (by decide)
  · rw [Bool.or_eq_true] at hbound
    rcases hbound with hb | hb
    · have hd0 := congrArg String.data (beq_iff_eq.1 hb)
      have hd1 := congrArg List.length hd0
      rw [hlen] at hd1
      have h16 : ((".claude/commands" : String).data).length = 16 := by decide
      rw [h16] at hd1
      omega
    · have h16 : ((".claude/commands" : String).data).length = 16 := by decide
      rw [hlen, hQ, h16] at hb
      rw [show Q.length + 19 - 16 - 1 = Q.length + 2 from by omega] at hb
      rw [List.getD_append_right Q _ ' ' (Q.length + 2) (by omega)] at hb
      rw [show Q.length + 2 - Q.length = 2 from by omega] at hb
      exact absurd hb (by decide)
  · have h1 : ((".claude/agents" : String).data) <:+
        (relString (pre ++ ["not.claude", "commands"])).data :=
      List.isSuffixOf_iff_suffix.1 hsuf
    have h2 : (("not.claude/commands" : String).data) <:+
        (relString (pre ++ ["not.claude", "commands"])).data := ⟨Q, hQ.symm⟩
    rcases List.suffix_or_suffix_of_suffix h1 h2 with h | h
    · exact absurd h (by decide)
    · exact absurd h (by decide)

mutual

/-- No walk result contains a `node_modules` component, provided the
parent prefix does not: the walk prunes `node_modules` directories
before descending. -/
theorem walkNode_nm (d : Nat) (parent : List String)
    (hpar : "node_modules" ∉ parent) :
    ∀ (n : FsNode), ∀ r ∈ walkNode d parent n, "node_modules" ∉ r
  | .file name => by
    intro r hr
    simp only [walkNode] at hr
    by_cases h1 : (parent ++ [name]).length = 1
    · rw [if_pos h1] at hr
      exact absurd hr (List.not_mem_nil _)
    rw [if_neg h1] at hr
    by_cases h2 : DangerousFiles.contains name = true ∧ (parent ++ [name]).length - 1 ≤ d
    · rw [if_pos h2] at hr
      rcases List.mem_singleton.1 hr with rfl
      intro hin
      rcases List.mem_append.1 hin with h | h
      · exact hpar h
      · have hcf := h2.1
        rw [← List.mem_singleton.1 h] at hcf
        exact absurd hcf (by decide)
    · rw [if_neg h2] at hr
      exact absurd hr (List.not_mem_nil _)
  | .dir name children => by
    intro r hr
    simp only [walkNode] at hr
    by_cases hnm : name = "node_modules"
    · rw [if_pos hnm] at hr
      exact absurd hr (List.not_mem_nil _)
    rw [if_neg hnm] at hr
    have hpar' : "node_modules" ∉ parent ++ [name] := by
      intro hin
      rcases List.mem_append.1 hin with h | h
      · exact hpar h
      · exact hnm (List.mem_singleton.1 h).symm
    by_cases hgit : name = ".git"
    · rw [if_pos hgit] at hr
      by_cases hrange : 1 ≤ (parent ++ [name]).length - 1 ∧ (parent ++ [name]).length - 1 ≤ d
      · rw [if_pos hrange] at hr
        rcases List.mem_append.1 hr with h | h
        · by_cases hh : hasHooksDir children = true
          · rw [if_pos hh] at h
            rcases List.mem_singleton.1 h with rfl
            intro hin
            rcases List.mem_append.1 hin with h3 | h3
            · exact hpar' h3
            · exact absurd (List.mem_singleton.1 h3) (by decide)
          · rw [if_neg hh] at h
            exact absurd h (List.not_mem_nil _)
        · by_cases hc : hasConfigFile children = true
          · rw [if_pos hc] at h
            rcases List.mem_singleton.1 h with rfl
            intro hin
            rcases List.mem_append.1 hin with h3 | h3
            · exact hpar' h3
            · exact absurd (List.mem_singleton.1 h3) (by decide)
          · rw [if_neg hc] at h
            exact absurd h (List.not_mem_nil _)
      · rw [if_neg hrange] at hr
        exact absurd hr (List.not_mem_nil _)
    rw [if_neg hgit] at hr
    by_cases hone : (parent ++ [name]).length = 1
    · rw [if_pos hone] at hr
      exact walkChildren_nm d (parent ++ [name]) hpar' children r hr
    rw [if_neg hone] at hr
    by_cases hdeep : (parent ++ [name]).length - 1 > d
    · rw [if_pos hdeep] at hr
      exact absurd hr (List.not_mem_nil _)
    rw [if_neg hdeep] at hr
    by_cases hdd : DangerousDirectories.contains name = true ∧ (parent ++ [name]).length - 1 ≤ d
    · rw [if_pos hdd] at hr
      rcases List.mem_singleton.1 hr with rfl
      exact hpar'
    rw [if_neg hdd] at hr
    by_cases hmc : multiCompBoundaryMatch d ((parent ++ [name]).length - 1)
        (relString (parent ++ [name])) = true
    · rw [if_pos hmc] at hr
      rcases List.mem_singleton.1 hr with rfl
      exact hpar'
    rw [if_neg hmc] at hr
    exact walkChildren_nm d (parent ++ [name]) hpar' children r hr

/-- The `node_modules` exclusion of `walkNode_nm`, over a list of
siblings. -/
theorem walkChildren_nm (d : Nat) (parent : List String)
    (hpar : "node_modules" ∉ parent) :
    ∀ (cs : List FsNode), ∀ r ∈ walkChildren d parent cs, "node_modules" ∉ r
  | [] => by
    intro r hr
    simp only [walkChildren] at hr
    exact absurd hr (List.not_mem_nil _)
  | c :: cs => by
    intro r hr
    simp only [walkChildren] at hr
    rcases List.mem_append.1 hr with h | h
    · exact walkNode_nm d parent hpar c r h
    · exact walkChildren_nm d parent hpar cs r h

end

mutual

/-- No walk result ends with the component pair `not.claude`,
`commands`: the multi-component dangerous-directory check only fires on
a path-component boundary. -/
theorem walkNode_nc (d : Nat) (parent : List String) :
    ∀ (n : FsNode), ∀ r ∈ walkNode d parent n,
      ¬ (["not.claude", "commands"] : List String) <:+ r
  | .file name => by
    intro r hr
    simp only [walkNode] at hr
    by_cases h1 : (parent ++ [name]).length = 1
    · rw [if_pos h1] at hr
      exact absurd hr (List.not_mem_nil _)
    rw [if_neg h1] at hr
    by_cases h2 : DangerousFiles.contains name = true ∧ (parent ++ [name]).length - 1 ≤ d
    · rw [if_pos h2] at hr
      rcases List.mem_singleton.1 hr with rfl
      intro hsuf
      obtain ⟨pre, hpre⟩ := hsuf
      have hlast := congrArg List.getLast? hpre
      rw [show pre ++ ["not.claude", "commands"] =
          (pre ++ ["not.claude"]) ++ ["commands"] from by simp,
        List.getLast?_concat, List.getLast?_concat] at hlast
      have hcf := h2.1
      rw [← Option.some.inj hlast] at hcf
      exact absurd hcf (by decide)
    · rw [if_neg h2] at hr
      exact absurd hr (List.not_mem_nil _)
  | .dir name children => by
    intro r hr
    simp only [walkNode] at hr
    by_cases hnm : name = "node_modules"
    · rw [if_pos hnm] at hr
      exact absurd hr (List.not_mem_nil _)
    rw [if_neg hnm] at hr
    by_cases hgit : name = ".git"
    · rw [if_pos hgit] at hr
      by_cases hrange : 1 ≤ (parent ++ [name]).length - 1 ∧ (parent ++ [name]).length - 1 ≤ d
      · rw [if_pos hrange] at hr
        rcases List.mem_append.1 hr with h | h
        · by_cases hh : hasHooksDir children = true
          · rw [if_pos hh] at h
            rcases List.mem_singleton.1 h with rfl
            intro hsuf
            obtain ⟨pre, hpre⟩ := hsuf
            have hlast := congrArg List.getLast? hpre
            rw [show pre ++ ["not.claude", "commands"] =
                (pre ++ ["not.claude"]) ++ ["commands"] from by simp,
              List.getLast?_concat, List.getLast?_concat] at hlast
            exact absurd (Option.some.inj hlast) (by decide)
          · rw [if_neg hh] at h
            exact absurd h (List.not_mem_nil _)
        · by_cases hc : hasConfigFile children = true
          · rw [if_pos hc] at h
            rcases List.mem_singleton.1 h with rfl
            intro hsuf
            obtain ⟨pre, hpre⟩ := hsuf
            have hlast := congrArg List.getLast? hpre
            rw [show pre ++ ["not.claude", "commands"] =
                (pre ++ ["not.claude"]) ++ ["commands"] from by simp,
              List.getLast?_concat, List.getLast?_concat] at hlast
            exact absurd (Option.some.inj hlast) (by decide)
          · rw [if_neg hc] at h
            exact absurd h (List.not_mem_nil _)
      · rw [if_neg hrange] at hr
        exact absurd hr (List.not_mem_nil _)
    rw [if_neg hgit] at hr
    by_cases hone : (parent ++ [name]).length = 1
    · rw [if_pos hone] at hr
      exact walkChildren_nc d (parent ++ [name]) children r hr
    rw [if_neg hone] at hr
    by_cases hdeep : (parent ++ [name]).length - 1 > d
    · rw [if_pos hdeep] at hr
      exact absurd hr (List.not_mem_nil _)
    rw [if_neg hdeep] at hr
    by_cases hdd : DangerousDirectories.contains name = true ∧ (parent ++ [name]).length - 1 ≤ d
    · rw [if_pos hdd] at hr
      rcases List.mem_singleton.1 hr with rfl
      intro hsuf
      obtain ⟨pre, hpre⟩ := hsuf
      have hlast := congrArg List.getLast? hpre
      rw [show pre ++ ["not.claude", "commands"] =
          (pre ++ ["not.claude"]) ++ ["commands"] from by simp,
        List.getLast?_concat, List.getLast?_concat] at hlast
      have hcd := hdd.1
      rw [← Option.some.inj hlast] at hcd
      exact absurd hcd (by decide)
    rw [if_neg hdd] at hr
    by_cases hmc : multiCompBoundaryMatch d ((parent ++ [name]).length - 1)
        (relString (parent ++ [name])) = true
    · rw [if_pos hmc] at hr
      rcases List.mem_singleton.1 hr with rfl
      intro hsuf
      obtain ⟨pre, hpre⟩ := hsuf
      rw [← hpre] at hmc
      rw [multiComp_no_notclaude] at hmc
      exact absurd hmc (by decide)
    rw [if_neg hmc] at hr
    exact walkChildren_nc d (parent ++ [name]) children r hr

/-- The boundary property of `walkNode_nc`, over a list of siblings. -/
theorem walkChildren_nc (d : Nat) (parent : List String) :
    ∀ (cs : List FsNode), ∀ r ∈ walkChildren d parent cs,
      ¬ (["not.claude", "commands"] : List String) <:+ r
  | [] => by
    intro r hr
    simp only [walkChildren] at hr
    exact absurd hr (List.not_mem_nil _)
  | c :: cs => by
    intro r hr
    simp only [walkChildren] at hr
    rcases List.mem_append.1 hr with h | h
    · exact walkNode_nc d parent c r h
    · exact walkChildren_nc d parent cs r h

end

/-- C6 (amended): `FindDangerousFiles` returns nothing for a
non-positive depth; no result contains a `node_modules` component; every
result sits at most `maxDepth` subdirectory levels below the root except
git hooks and config results, which may sit one level deeper because the
`.git` peek does not count against the depth limit; no result ends with
the components `not.claude`, `commands`, since the multi-component
dangerous-directory check only matches on a path-component boundary; and
the default depth constant is 3. -/
theorem c6_find_dangerous_files (root : List FsNode) (maxDepth : Int) :
    (maxDepth ≤ 0 → FindDangerousFiles root maxDepth = []) ∧
    (∀ r ∈ FindDangerousFiles root maxDepth, "node_modules" ∉ r) ∧
    (∀ r ∈ FindDangerousFiles root maxDepth,
        r.length ≤ maxDepth.toNat + 1 ∨
        (((([".git", "hooks"] : List String) <:+ r) ∨
          (([".git", "config"] : List String) <:+ r)) ∧
          r.length ≤ maxDepth.toNat + 2)) ∧
    (∀ r ∈ FindDangerousFiles root maxDepth,
        ¬ (["not.claude", "commands"] : List String) <:+ r) ∧
    DefaultMaxDangerousFileDepth = 3 := by
  refine ⟨?_, ?_, ?_, ?_, rfl⟩
  · intro h
    rw [FindDangerousFiles, if_pos h]
  · intro r hr
    rw [FindDangerousFiles] at hr
    by_cases h : maxDepth ≤ 0
    · rw [if_pos h] at hr
      exact absurd hr (List.not_mem_nil _)
    · rw [if_neg h] at hr
      exact walkChildren_nm maxDepth.toNat [] (List.not_mem_nil _) root r hr
  · intro r hr
    rw [FindDangerousFiles] at hr
    by_cases h : maxDepth ≤ 0
    · rw [if_pos h] at hr
      exact absurd hr (List.not_mem_nil _)
    · rw [if_neg h] at hr
      exact walkChildren_depth maxDepth.toNat [] root r hr
  · intro r hr
    rw [FindDangerousFiles] at hr
    by_cases h : maxDepth ≤ 0
    · rw [if_pos h] at hr
      exact absurd hr (List.not_mem_nil _)
    · rw [if_neg h] at hr
      exact walkChildren_nc maxDepth.toNat [] root r hr

/-- The depth conjunct of `c6_find_dangerous_files` evaluated on a
concrete tree: the walk on `s2/.claude/commands` at depth 3 reports the
dangerous directory, and the report carries no `node_modules`
component. -/
theorem c6_find_dangerous_files_witness :
    ("node_modules" : String) ∉ (["s2", ".claude", "commands"] : List String) :=
  (c6_find_dangerous_files
      [FsNode.dir "s2" [FsNode.dir ".claude" [FsNode.dir "commands" []]]] 3).2.1
    ["s2", ".claude", "commands"] (by decide)

/-- The literal depth bound of the claim fails: with `maxDepth = 1`, the
tree `a/.git/hooks` produces a result two subdirectory levels below the
root, because the `.git` peek does not count against the depth limit. -/
theorem c6_depth_counterexample :
    ∃ r ∈ FindDangerousFiles [FsNode.dir "a" [FsNode.dir ".git" [FsNode.dir "hooks" []]]] 1,
      1 < r.length - 1 := by decide

/-- C2: when the allowed-domain list contains the literal entry `*`, the
network-namespace section is empty, so `--unshare-net` appears in the
assembled vector only if some later section happened to emit that very
string; and when `*` is absent (as with patterns such as
`*.example.com` or `test*domain.com`) and the capability is available,
the flag is present. -/
theorem c2_wildcard_unshare_net (env : SandboxEnv) (cfg : Config)
    (bridge : Option Bridge) (rb : Option (List RevSock))
    (opts : LinuxSandboxOptions) (command : String) :
    (cfg.network.allowedDomains.contains "*" = true →
      "--unshare-net" ∉ postNetnsArgs env (some cfg) bridge rb opts command →
      "--unshare-net" ∉ buildBwrapArgs env (some cfg) bridge rb opts command) ∧
    (("*" : String) ∉ cfg.network.allowedDomains →
      env.canUnshareNet = true →
      "--unshare-net" ∈ buildBwrapArgs env (some cfg) bridge rb opts command) := by
  constructor
  · intro hw hpost hmem
    have hnet : netnsArgs env (some cfg) = [] := by
      rw [netnsArgs]
      have hwc : hasWildcardAllow (some cfg) = true := hw
      rw [hwc]
      simp
    rw [buildBwrapArgs, hnet] at hmem
    rcases List.mem_append.1 hmem with h | h
    · rcases List.mem_append.1 h with h2 | h2
      · rcases List.mem_append.1 h2 with h3 | h3
        · exact absurd h3 (by decide)
        · exact absurd h3 (List.not_mem_nil _)
      · exact absurd h2 (by decide)
    · exact hpost h
  · intro hstar hcan
    have hwc : hasWildcardAllow (some cfg) = false := by
      simp only [hasWildcardAllow]
      simpa using hstar
    have hnet : netnsArgs env (some cfg) = ["--unshare-net"] := by
      rw [netnsArgs, hwc, hcan]
      simp
    rw [buildBwrapArgs, hnet]
    exact List.mem_append.2 (Or.inl (List.mem_append.2 (Or.inl
      (List.mem_append.2 (Or.inr (by decide))))))

/-- The two directions of the wildcard rule evaluated concretely: a
policy allowing `*` yields a vector without `--unshare-net`, while one
allowing only `*.example.com` and `test*domain.com` keeps the flag. -/
theorem c2_wildcard_unshare_net_witness :
    "--unshare-net" ∉ buildBwrapArgs sampleEnv
        (some { network := { allowedDomains := ["*"] } }) none none {} "true" ∧
    "--unshare-net" ∈ buildBwrapArgs sampleEnv
        (some { network := { allowedDomains := ["*.example.com", "test*domain.com"] } })
        none none {} "true" :=
  ⟨(c2_wildcard_unshare_net sampleEnv { network := { allowedDomains := ["*"] } }
      none none {} "true").1 (by decide) (by decide),
   (c2_wildcard_unshare_net sampleEnv
      { network := { allowedDomains := ["*.example.com", "test*domain.com"] } }
      none none {} "true").2 (by decide) rfl⟩

/-- The mandatory dangerous-path loop emits a protective mount for every
listed path that is not claimed by `denyRead` and exists, unless the
dedup set already holds it. -/
theorem mandatoryFold_emits (env : SandboxEnv) (cfg? : Option Config)
    (denyList : List String) (p : String)
    (hdeny : denyList.contains p = false) (hex : env.fileExists p = true) :
    ∀ (l : List String) (seen : List String), p ∈ l →
      protectiveMount env cfg? p <:+: (mandatoryFold env cfg? denyList seen l).1 ∨
      seen.contains p = true
  | [], _ => fun h => absurd h (List.not_mem_nil _)
  | q :: rest, seen => by
    intro hmem
    simp only [mandatoryFold]
    by_cases hdq : denyList.contains q = true
    · rw [if_pos hdq]
      have hpq : p ≠ q := by
        intro h
        rw [← h, hdeny] at hdq
        exact Bool.false_ne_true hdq
      have hpr : p ∈ rest := by
        rcases List.mem_cons.1 hmem with h | h
        · exact absurd h hpq
        · exact h
      exact mandatoryFold_emits env cfg? denyList p hdeny hex rest seen hpr
    rw [if_neg hdq]
    by_cases hc : (!seen.contains q && env.fileExists q) = true
    · rw [if_pos hc]
      by_cases hpq : p = q
      · subst hpq
        exact Or.inl ⟨[], (mandatoryFold env cfg? denyList (seen ++ [p]) rest).1, by simp⟩
      · have hpr : p ∈ rest := by
          rcases List.mem_cons.1 hmem with h | h
          · exact absurd h hpq
          · exact h
        rcases mandatoryFold_emits env cfg? denyList p hdeny hex rest (seen ++ [q]) hpr
          with h | h
        · left
          obtain ⟨s, t, hst⟩ := h
          exact ⟨protectiveMount env cfg? q ++ s, t, by rw [← hst]; simp⟩
        · right
          have hm : p ∈ seen ++ [q] := by simpa using h
          rcases List.mem_append.1 hm with h2 | h2
          · simpa using h2
          · exact absurd (List.mem_singleton.1 h2) hpq
    · rw [if_neg hc]
      by_cases hpq : p = q
      · subst hpq
        right
        cases h : seen.contains p with
        | false => exact absurd (by rw [h, hex]; rfl) hc
        | true => rfl
      · have hpr : p ∈ rest := by
          rcases List.mem_cons.1 hmem with h | h
          · exact absurd h hpq
          · exact h
        exact mandatoryFold_emits env cfg? denyList p hdeny hex rest seen hpr

/-- C1: for a mandatory-deny catalog path `p` (dangerous files and
directories under the working directory, `.git/hooks` and `.git/config`
under it, dangerous files under the home directory) that exists and is
not claimed by a `denyRead` entry, the assembled vector decomposes
around the mandatory section, that section carries `p`'s protective
mount (a read-only self-bind, or a `/dev/null`-file/tmpfs-directory mask
under `defaultDenyRead`), and the writable binds of `allowWrite` all sit
in the part that precedes it, so the protection wins by coming later. -/
theorem c1_mandatory_protective_mount (env : SandboxEnv) (cfg? : Option Config)
    (bridge : Option Bridge) (rb : Option (List RevSock))
    (opts : LinuxSandboxOptions) (command : String) (p : String)
    (hp : p ∈ getMandatoryDenyPaths env.home (env.cwd.getD ""))
    (hdeny : (denyReadPathsList env cfg?).contains p = false)
    (hex : env.fileExists p = true) :
    buildBwrapArgs env cfg? bridge rb opts command =
      argsBeforeMandatory env cfg? opts ++ mandatoryArgs env cfg? ++
        argsAfterMandatory env cfg? bridge rb opts command ∧
    protectiveMount env cfg? p <:+: mandatoryArgs env cfg? ∧
    writableBindArgs env cfg? <:+: argsBeforeMandatory env cfg? opts := by
  refine ⟨?_, ?_, ?_⟩
  · simp only [buildBwrapArgs, postNetnsArgs, argsBeforeMandatory, argsAfterMandatory,
      List.append_assoc]
  · rcases mandatoryFold_emits env cfg? (denyReadPathsList env cfg?) p hdeny hex
        (getMandatoryDenyPaths env.home (env.cwd.getD "")) [] hp with h | h
    · exact h
    · exact absurd h (by simp)
  · refine ⟨baseArgs ++ netnsArgs env cfg? ++ ["--unshare-pid"] ++ seccompArgs env opts ++
      fsBaseArgs env cfg? ++ specialMounts ++ resolvConfArgs env cfg?,
      crossMountArgs env cfg? ++ denyReadArgs env cfg?, ?_⟩
    simp only [argsBeforeMandatory, List.append_assoc]

/-- The mandatory protective mount evaluated concretely: with `/w` as
the working directory, `allowWrite` covering `/w`, and `/w/.bashrc`
present, the mandatory section carries the read-only self-bind of
`/w/.bashrc`. -/
theorem c1_mandatory_protective_mount_witness :
    protectiveMount sampleEnv (some { filesystem := { allowWrite := some ["/w"] } })
        "/w/.bashrc" <:+:
      mandatoryArgs sampleEnv (some { filesystem := { allowWrite := some ["/w"] } }) :=
  (c1_mandatory_protective_mount sampleEnv
      (some { filesystem := { allowWrite := some ["/w"] } }) none none {} "true"
      "/w/.bashrc" (by decide) (by decide) (by decide)).2.1

/-- C5 (amended): the `denyRead` section is the glob-expanded loop
followed by the normalizing loop.  In the glob-expanded loop an entry
that exists and is not a symbolic link is masked in place (tmpfs over a
directory, a read-only bind of `/dev/null` over a file) and a symbolic
link produces nothing; in the normalizing loop each entry is first
resolved by `NormalizePath`, and the mask lands on the resolved path —
so a symbolic-link entry whose target resolves does produce a mount at
the target. -/
theorem c5_deny_read_masking (env : SandboxEnv) (cfg : Config) (ps : List String)
    (hps : cfg.filesystem.denyRead = some ps) :
    denyReadArgs env (some cfg) =
      (env.expandGlob ps).flatMap (denyReadExpandedEntry env) ++
        ps.flatMap (denyReadNormEntry env) ∧
    (∀ p, env.isSymlink p = false → env.fileExists p = true →
      denyReadExpandedEntry env p =
        (if env.isDirectory p then ["--tmpfs", p] else ["--ro-bind", "/dev/null", p])) ∧
    (∀ p, env.isSymlink p = true → denyReadExpandedEntry env p = []) ∧
    (∀ p n, NormalizePath env.pathEnv p = n → ContainsGlobChars n = false →
      env.isSymlink n = false → env.fileExists n = true →
      denyReadNormEntry env p =
        (if env.isDirectory n then ["--tmpfs", n] else ["--ro-bind", "/dev/null", n])) ∧
    (∀ p n, NormalizePath env.pathEnv p = n → ContainsGlobChars n = false →
      env.isSymlink n = true → denyReadNormEntry env p = []) := by
  refine ⟨?_, ?_, ?_, ?_, ?_⟩
  · simp [denyReadArgs, hps]
  · intro p h1 h2
    have hcm : canMountOver env p = true := by rw [canMountOver, h1, h2]; rfl
    simp [denyReadExpandedEntry, hcm, maskMount]
  · intro p h1
    simp [denyReadExpandedEntry, canMountOver, h1]
  · intro p n hn hg h1 h2
    have hcm : canMountOver env n = true := by rw [canMountOver, h1, h2]; rfl
    simp [denyReadNormEntry, hn, hg, hcm, maskMount]
  · intro p n hn hg h1
    simp [denyReadNormEntry, hn, hg, canMountOver, h1]

/-- The claim's symlink clause fails on the code: the deny-read entry
`/link` is a symbolic link, yet the assembled section masks its resolved
target `/target`, because the normalizing loop resolves symbolic links
before mounting. -/
theorem c5_deny_read_counterexample :
    symlinkEnv.isSymlink "/link" = true ∧
    denyReadArgs symlinkEnv (some { filesystem := { denyRead := some ["/link"] } }) =
      ["--ro-bind", "/dev/null", "/target"] := by decide

/-- The normalizing loop evaluated concretely: the symbolic link `/link`
resolves to the file `/target`, which receives the `/dev/null` mask. -/
theorem c5_deny_read_masking_witness :
    denyReadNormEntry symlinkEnv "/link" = ["--ro-bind", "/dev/null", "/target"] :=
  (c5_deny_read_masking symlinkEnv { filesystem := { denyRead := some ["/link"] } }
      ["/link"] rfl).2.2.2.1 "/link" "/target" (by decide) (by decide) (by decide) (by decide)

/-- A character infix of a string is an infix of any extension on the
right. -/
theorem infix_data_append_left (x : List Char) (s t : String) (h : x <:+: s.data) :
    x <:+: (s ++ t).data := by
  rw [String.data_append s t]
  exact h.trans ⟨[], t.data, by simp⟩

/-- A character infix of a string is an infix of any extension on the
left. -/
theorem infix_data_append_right (x : List Char) (s t : String) (h : x <:+: t.data) :
    x <:+: (s ++ t).data := by
  rw [String.data_append s t]
  exact h.trans ⟨s.data, [], by simp⟩

/-- C4 (amended): whenever a proxy bridge is present, the inner script
exports `HTTP_PROXY` and `HTTPS_PROXY` pointing at the loopback HTTP
listener, `ALL_PROXY` as a `socks5h://` loopback URL, and a `NO_PROXY`
covering only the loopback names; the RFC1918-range `NO_PROXY` value
exists in `GenerateProxyEnvVars`, not in the inner script. -/
theorem c4_inner_script_proxy_env (env : SandboxEnv) (cfg? : Option Config)
    (b : Bridge) (rb : Option (List RevSock)) (opts : LinuxSandboxOptions)
    (command : String) :
    (("export HTTP_PROXY=http://127.0.0.1:3128\n" : String).data <:+:
      (innerScript env cfg? (some b) rb opts command).data) ∧
    (("export HTTPS_PROXY=http://127.0.0.1:3128\n" : String).data <:+:
      (innerScript env cfg? (some b) rb opts command).data) ∧
    (("export ALL_PROXY=socks5h://127.0.0.1:1080\n" : String).data <:+:
      (innerScript env cfg? (some b) rb opts command).data) ∧
    (("export NO_PROXY=localhost,127.0.0.1\nexport no_proxy=localhost,127.0.0.1\n" :
        String).data <:+:
      (innerScript env cfg? (some b) rb opts command).data) ∧
    ("NO_PROXY=" ++ noProxyValue) ∈ GenerateProxyEnvVars 3128 1080 := by
  refine ⟨?_, ?_, ?_, ?_, by decide⟩ <;>
  · simp only [innerScript, bridgeScriptBlock]
    exact infix_data_append_left _ _ _ (infix_data_append_left _ _ _
      (infix_data_append_left _ _ _ (infix_data_append_right _ _ _ (by decide))))

/-- The claim's `NO_PROXY` clause fails on the code: a concrete inner
script carries the loopback-only `NO_PROXY` export and none of the
RFC1918 private ranges appear anywhere in it. -/
theorem c4_no_proxy_counterexample :
    listHasSub ("export NO_PROXY=localhost,127.0.0.1\n" : String).data
      (innerScript sampleEnv none (some ⟨"/t/h.sock", "/t/s.sock"⟩) none {} "true").data
      = true ∧
    listHasSub ("10.0.0.0/8" : String).data
      (innerScript sampleEnv none (some ⟨"/t/h.sock", "/t/s.sock"⟩) none {} "true").data
      = false ∧
    listHasSub ("172.16.0.0/12" : String).data
      (innerScript sampleEnv none (some ⟨"/t/h.sock", "/t/s.sock"⟩) none {} "true").data
      = false ∧
    listHasSub ("192.168.0.0/16" : String).data
      (innerScript sampleEnv none (some ⟨"/t/h.sock", "/t/s.sock"⟩) none {} "true").data
      = false := by decide

end Fence
